import Mathlib

/-!
Shallow embedding of the context-extractor core from `src/lib/context.ts`
(class `ContextExtractor` plus its module-level utilities), together with
proofs that settle the specification claims about it.

Modelling conventions:
* JS numbers are modelled exactly: integers as `Nat`/`Int`, and the few
  fractional computations (scores, budgets, similarities) as the exact
  fraction type `Fr` below (a kernel-computable stand-in for `ℚ`;
  `Fr.toRat` bridges to `ℚ` for the statements).  `Math.exp(-m)` is the
  one transcendental operation; it is passed in as an explicit parameter
  `expNeg : Nat → Fr` wherever the source calls it, so every theorem
  about scoring holds for any faithful interpretation of `exp`.
* The Monaco text model is a list of lines (`TextModel`); its accessors
  (`getOffsetAt`, `getValueInRange`, ...) are implemented with Monaco's
  documented clamping behaviour.
* The tree-sitter syntax tree is the rose tree `STree`; nodes are
  addressed by child-index paths (`NodeRef`), which replaces the
  pointer-based `parent`/`sibling` navigation of the library.  Tree
  recursions take a `fuel : Nat` argument for termination; all concrete
  runs use ample fuel and the general theorems do not depend on it.
* `parse` / `tree.edit` belong to the external web-tree-sitter library
  and are parameters (`ParserFns`); `parse` returning `none` models a
  parse call that throws (or yields nothing).  Public queries return
  `Except Unit _`, where `.error ()` models a JavaScript exception
  escaping to the caller.
* The stopword list `CODE_STOPWORDS` lives in `src/lib/stopwords`, whose
  content is not part of the sources (the spec treats it as an external
  static set); it is a parameter `STOP : List String` throughout.
* JS `Array.prototype.sort` (stable, ES2019) is modelled by the stable
  insertion sort `jsSort` with the comparator translated to a boolean
  `le` relation.
-/

namespace ContextSpec

/-! ### Exact fractions (kernel-computable stand-in for JS numeric values) -/

/-- Exact fraction with positive denominator.  Arithmetic does not
normalize, so every operation reduces in the kernel (Mathlib's `ℚ`
does not); `toRat` interprets a value in `ℚ`. -/
structure Fr where
  num : Int
  den : Int
  den_pos : 0 < den

def Fr.ofInt (n : Int) : Fr := ⟨n, 1, one_pos⟩

def Fr.ofNat (n : Nat) : Fr := ⟨(n : Int), 1, one_pos⟩

def frZero : Fr := Fr.ofInt 0

def frOne : Fr := Fr.ofInt 1

/-- Builds `n / d`; falls back to `n / 1` when `d ≤ 0` (never used so). -/
def frMk (n d : Int) : Fr :=
  if h : 0 < d then ⟨n, d, h⟩ else ⟨n, 1, one_pos⟩

def Fr.add (a b : Fr) : Fr :=
  ⟨a.num * b.den + b.num * a.den, a.den * b.den, mul_pos a.den_pos b.den_pos⟩

def Fr.sub (a b : Fr) : Fr :=
  ⟨a.num * b.den - b.num * a.den, a.den * b.den, mul_pos a.den_pos b.den_pos⟩

def Fr.mul (a b : Fr) : Fr :=
  ⟨a.num * b.num, a.den * b.den, mul_pos a.den_pos b.den_pos⟩

/-- Division.  Total function; division by a non-positive numerator is
routed so the denominator stays positive (the sources only ever divide
by positive quantities). -/
def Fr.div (a b : Fr) : Fr :=
  if h : 0 < b.num then ⟨a.num * b.den, a.den * b.num, mul_pos a.den_pos h⟩
  else if h2 : b.num < 0 then
    ⟨-(a.num * b.den), a.den * (-b.num), mul_pos a.den_pos (by omega)⟩
  else ⟨0, 1, one_pos⟩

def Fr.ble (a b : Fr) : Bool := decide (a.num * b.den ≤ b.num * a.den)

def Fr.blt (a b : Fr) : Bool := decide (a.num * b.den < b.num * a.den)

def Fr.beq (a b : Fr) : Bool := decide (a.num * b.den = b.num * a.den)

def Fr.minF (a b : Fr) : Fr := if Fr.ble a b then a else b

def Fr.maxF (a b : Fr) : Fr := if Fr.ble a b then b else a

/-- Interpretation in `ℚ`. -/
def Fr.toRat (a : Fr) : ℚ := (a.num : ℚ) / (a.den : ℚ)

/-- Floor of a fraction, as the source's `Math.floor`. -/
def Fr.floorI (a : Fr) : Int := Int.fdiv a.num a.den

/-- Source `clamp01` (context.ts:311): `Math.max(0, Math.min(1, x))`. -/
def clamp01 (x : Fr) : Fr := Fr.maxF frZero (Fr.minF frOne x)

/-! ### Stable sort modelling `Array.prototype.sort` -/

def jsOrderedInsert (le : α → α → Bool) (x : α) : List α → List α
  | [] => [x]
  | y :: ys => if le x y then x :: y :: ys else y :: jsOrderedInsert le x ys

/-- Stable sort: an element goes before another exactly when the JS
comparator returns a non-positive value on the pair (encoded by `le`). -/
def jsSort (le : α → α → Bool) : List α → List α
  | [] => []
  | x :: xs => jsOrderedInsert le x (jsSort le xs)

/-! ### Characters and token utilities (context.ts:306-363) -/

abbrev Chars := List Char

def braceL : Char := Char.ofNat 123

def braceR : Char := Char.ofNat 125

def backtickC : Char := Char.ofNat 96

def squoteC : Char := Char.ofNat 39

def dquoteC : Char := Char.ofNat 34

def toLowerChars (l : Chars) : Chars := l.map Char.toLower

/-- Character class `[A-Za-z0-9]` (the survivors of the `[_\W]+`
replacement in `splitCamelSnake`). -/
def isAlnum (c : Char) : Bool := c.isAlpha || c.isDigit

/-- First replacement of `splitCamelSnake` (context.ts:318-324): insert a
space between a `[a-z0-9]` character and a following `[A-Z]` character. -/
def camelBreak : Chars → Chars
  | [] => []
  | [c] => [c]
  | c1 :: c2 :: rest =>
    if (c1.isLower || c1.isDigit) && c2.isUpper then
      c1 :: ' ' :: camelBreak (c2 :: rest)
    else c1 :: camelBreak (c2 :: rest)

/-- Splits a character list into the maximal runs satisfying `p`
(the combined effect of replacing the complement with spaces, splitting
on whitespace and dropping empties). -/
def runsOfGo (p : Char → Bool) : Chars → Chars → List Chars → List Chars
  | [], cur, acc =>
    if cur.isEmpty then acc.reverse else (cur.reverse :: acc).reverse
  | c :: rest, cur, acc =>
    if p c then runsOfGo p rest (c :: cur) acc
    else if cur.isEmpty then runsOfGo p rest [] acc
    else runsOfGo p rest [] (cur.reverse :: acc)

def runsOf (p : Char → Bool) (l : Chars) : List Chars := runsOfGo p l [] []

/-- Source `splitCamelSnake` (context.ts:318-324). -/
def splitCamelSnake (s : Chars) : List String :=
  (runsOf isAlnum (camelBreak s)).map List.asString

def dedupGo (seen : List String) : List String → List String
  | [] => []
  | x :: xs => if x ∈ seen then dedupGo seen xs else x :: dedupGo (x :: seen) xs

/-- Order-preserving deduplication (the `seen` loop of `cutTokenize`). -/
def dedupPreserve (l : List String) : List String := dedupGo [] l

/-- Source `cutTokenize` (context.ts:329-350).  `STOP` is the external
stopword set `CODE_STOPWORDS`. -/
def cutTokenize (STOP : List String) (raw : Chars) : List String :=
  if raw.isEmpty then []
  else
    dedupPreserve
      ((splitCamelSnake (toLowerChars raw)).filter
        (fun w => decide (1 < w.length) && !(STOP.contains w)))

/-- Source `jaccard` (context.ts:355-363).  Arguments are JS `Set`s,
modelled as deduplicated lists. -/
def jaccard (a b : List String) : Fr :=
  if a.length = 0 && b.length = 0 then frZero
  else
    let inter := (a.filter (fun t => b.contains t)).length
    frMk (inter : Int) ((a.length + b.length - inter : Nat) : Int)

/-- Character class `[a-z0-9_]` used by the `tokenize` method. -/
def isTokenizeChar (c : Char) : Bool := c.isLower || c.isDigit || c = '_'

/-- Source method `tokenize` (context.ts:1743-1750): lowercase, replace
`[^a-z0-9_]+` by spaces, split on whitespace, drop empties. -/
def jsTokenize (s : Chars) : List String :=
  (runsOf isTokenizeChar (toLowerChars s)).map List.asString

def isPrefixOfChars : Chars → Chars → Bool
  | [], _ => true
  | _ :: _, [] => false
  | c :: cs, d :: ds => c = d && isPrefixOfChars cs ds

/-- JS `String.prototype.includes`. -/
def containsSub (hay sub : Chars) : Bool :=
  match hay with
  | [] => sub.isEmpty
  | _ :: rest => isPrefixOfChars sub hay || containsSub rest sub

/-! ### Monaco text model (external collaborator, §6 of the spec) -/

/-- 1-based editor position (`{lineNumber, column}`). -/
structure Position where
  lineNumber : Int
  column : Int
  deriving Repr, DecidableEq, Inhabited

/-- 0-based tree-sitter point (`{row, column}`). -/
structure Pt where
  row : Int
  column : Int
  deriving Repr, DecidableEq, Inhabited

/-- Character-offset range `[startOffset, endOffset)`. -/
structure Rng where
  startOffset : Nat
  endOffset : Nat
  deriving Repr, DecidableEq, Inhabited

/-- The Monaco buffer: its list of lines (without terminators). -/
structure TextModel where
  lines : List String
  deriving Repr, Inhabited

def TextModel.getLineCount (m : TextModel) : Nat := m.lines.length

def TextModel.lineLen (m : TextModel) (i : Nat) : Nat :=
  (m.lines.getD (i - 1) "").length

def TextModel.getLineContent (m : TextModel) (i : Int) : Chars :=
  (m.lines.getD (i - 1).toNat "").toList

def TextModel.getLineMaxColumn (m : TextModel) (i : Int) : Nat :=
  m.lineLen i.toNat + 1

/-- Start offset of (1-based, in range) line `i`. -/
def TextModel.lineStart (m : TextModel) (i : Nat) : Nat :=
  ((m.lines.take (i - 1)).map (fun l => l.length + 1)).sum

def TextModel.totalLength (m : TextModel) : Nat :=
  (m.lines.map String.length).sum + (m.getLineCount - 1)

/-- Monaco position validation: clamp the line into `[1, lineCount]` and
the column into `[1, maxColumn(line)]`. -/
def TextModel.validatePos (m : TextModel) (p : Position) : Nat × Nat :=
  let ln : Nat := min (max 1 p.lineNumber).toNat (max 1 m.getLineCount)
  let col : Nat := min (max 1 p.column).toNat (m.lineLen ln + 1)
  (ln, col)

def TextModel.getOffsetAt (m : TextModel) (p : Position) : Nat :=
  let v := m.validatePos p
  m.lineStart v.1 + (v.2 - 1)

def posAtGo : List String → Nat → Nat → Nat × Nat
  | [], ln, _ => (max 1 ln, 1)
  | l :: rest, ln, off =>
    if off ≤ l.length then (ln, off + 1)
    else
      match rest with
      | [] => (ln, l.length + 1)
      | _ :: _ => posAtGo rest (ln + 1) (off - (l.length + 1))

def TextModel.getPositionAt (m : TextModel) (off : Int) : Position :=
  let o : Nat := min (max 0 off).toNat m.totalLength
  let v := posAtGo m.lines 1 o
  ⟨(v.1 : Int), (v.2 : Int)⟩

def TextModel.value (m : TextModel) : Chars :=
  (List.intercalate ['\n'] (m.lines.map String.toList))

/-- Monaco line/column range. -/
structure RangeLC where
  startLineNumber : Int
  startColumn : Int
  endLineNumber : Int
  endColumn : Int
  deriving Repr, DecidableEq, Inhabited

def TextModel.getValueInRange (m : TextModel) (r : RangeLC) : Chars :=
  let a := m.getOffsetAt ⟨r.startLineNumber, r.startColumn⟩
  let b := m.getOffsetAt ⟨r.endLineNumber, r.endColumn⟩
  (m.value.drop a).take (b - a)

def TextModel.sliceOffsets (m : TextModel) (a b : Nat) : Chars :=
  (m.value.drop a).take (b - a)

/-! ### Tree-sitter syntax tree (external collaborator, §6 of the spec) -/

/-- Data carried by one tree-sitter node.  `hasErr` is the cumulative
`hasError` flag (true when the subtree contains an error), `fieldName`
is the field label of this node within its parent, and `text` is the
node's source slice. -/
structure NodeData where
  type : String
  startPos : Pt
  endPos : Pt
  isNamed : Bool
  fieldName : Option String
  hasErr : Bool
  isMissing : Bool
  text : String
  deriving Repr, Inhabited

inductive STree where
  | node (data : NodeData) (children : List STree)

instance : Inhabited STree := ⟨.node default []⟩

def STree.data : STree → NodeData
  | .node d _ => d

def STree.children : STree → List STree
  | .node _ cs => cs

def STree.namedChildren (t : STree) : List STree :=
  t.children.filter (fun c => c.data.isNamed)

def STree.child (t : STree) (i : Nat) : Option STree := t.children.get? i

def STree.namedChild (t : STree) (i : Nat) : Option STree :=
  t.namedChildren.get? i

def STree.childForFieldName (t : STree) (f : String) : Option STree :=
  t.children.find? (fun c => c.data.fieldName == some f)

/-- Lexicographic order on points. -/
def ptLeB (a b : Pt) : Bool :=
  decide (a.row < b.row) || (decide (a.row = b.row) && decide (a.column ≤ b.column))

/-- Point containment used by `descendantForPosition` (inclusive at both
ends, as in tree-sitter's point lookup). -/
def nodeContainsPt (t : STree) (p : Pt) : Bool :=
  ptLeB t.data.startPos p && ptLeB p t.data.endPos

/-- Nodes are addressed by their child-index path from the root. -/
abbrev NodeRef := List Nat

def STree.getRef : STree → NodeRef → Option STree
  | t, [] => some t
  | t, i :: rest =>
    match t.children.get? i with
    | some c => STree.getRef c rest
    | none => none

def nodeAtD (root : STree) (r : NodeRef) : STree := (root.getRef r).getD default

def typeAt (root : STree) (r : NodeRef) : String := (nodeAtD root r).data.type

def findChildContaining : List STree → Pt → Nat → Option (Nat × STree)
  | [], _, _ => none
  | c :: rest, p, i =>
    if nodeContainsPt c p then some (i, c) else findChildContaining rest p (i + 1)

/-- `rootNode.descendantForPosition(p)`: descend into the first child
containing the point as long as one exists; the result is the path of
the smallest node found (`[]` is the root itself).  The external API
always returns a node, never null. -/
def descendantForPosition (fuel : Nat) (t : STree) (p : Pt) : NodeRef :=
  match fuel with
  | 0 => []
  | fuel + 1 =>
    match findChildContaining t.children p 0 with
    | none => []
    | some (i, c) => i :: descendantForPosition fuel c p

/-- The chain `[node, parent, ..., root]` of refs (self first). -/
def selfAndAncestors (r : NodeRef) : List NodeRef := (List.inits r).reverse

/-- The chain `[parent, ..., root]` of proper-ancestor refs. -/
def ancestorChain (r : NodeRef) : List NodeRef := (selfAndAncestors r).drop 1

/-- The chain `[node, parent, ...]` stopping before the root: the
traversal pattern `while (current && current !== rootNode)`. -/
def chainBelowRoot (r : NodeRef) : List NodeRef := (selfAndAncestors r).dropLast

def parentRefOf (r : NodeRef) : Option NodeRef :=
  match r with
  | [] => none
  | _ :: _ => some r.dropLast

/-- Index of a node among its parent's (all) children. -/
def lastIdxOf (r : NodeRef) : Nat := r.getLast?.getD 0

/-! ### Node classification (context.ts:1228-1340) -/

/-- Source `isFunctionLike` (context.ts:1228). -/
def isFunctionLikeType (ty : String) : Bool :=
  ty == "function_declaration" || ty == "function_expression" ||
  ty == "arrow_function" || ty == "method_definition" ||
  ty == "generator_function" || ty == "class_method" || ty == "function"

/-- Source `isWholeBlockCandidate` (context.ts:1247). -/
def isWholeBlockCandidateType (ty : String) : Bool :=
  ty == "function_declaration" || ty == "function_expression" ||
  ty == "arrow_function" || ty == "method_definition" ||
  ty == "generator_function" || ty == "class_declaration" ||
  ty == "lexical_declaration" || ty == "variable_declaration" ||
  ty == "expression_statement" || ty == "if_statement" ||
  ty == "for_statement" || ty == "for_in_statement" ||
  ty == "for_of_statement" || ty == "while_statement" ||
  ty == "do_statement" || ty == "try_statement" || ty == "switch_statement"

/-- Source `isFunctionBody` (context.ts:1338). -/
def isFunctionBodyType (ty : String) : Bool :=
  ty == "statement_block" || ty == "function_body"

/-- Block-like types recognized by `isCursorAtTopLevel` and
`getCurrentEnclosingBlock` (context.ts:1364-1381). -/
def isEnclosingBlockType (ty : String) : Bool :=
  isFunctionLikeType ty || ty == "class_declaration" ||
  ty == "statement_block" || ty == "block_statement" ||
  ty == "function_body" || ty == "if_statement" || ty == "for_statement" ||
  ty == "for_in_statement" || ty == "for_of_statement" ||
  ty == "while_statement" || ty == "do_statement" || ty == "try_statement" ||
  ty == "catch_clause" || ty == "finally_clause" || ty == "switch_statement"

/-! ### Node navigation (context.ts:613-622, 1271-1613) -/

/-- Source `wrapFunctionIfArgument` (context.ts:613): the first
call/new-expression ancestor, else the node itself (the walk visits
every ancestor up to and including the root). -/
def wrapFunctionIfArgument (root : STree) (r : NodeRef) : NodeRef :=
  match (ancestorChain r).find? (fun a =>
      typeAt root a == "call_expression" || typeAt root a == "new_expression") with
  | some a => a
  | none => r

/-- Source `wholeBlockContainer` (context.ts:1271). -/
def wholeBlockContainer (root : STree) (r : NodeRef) : NodeRef :=
  let n := nodeAtD root r
  if isFunctionLikeType n.data.type then wrapFunctionIfArgument root r
  else if n.data.type == "expression_statement" && n.namedChildren.length == 1 then
    match n.children.findIdx? (fun c => c.data.isNamed) with
    | some j =>
      let c := nodeAtD root (r ++ [j])
      if c.data.type == "call_expression" || c.data.type == "new_expression" then
        r ++ [j]
      else r
    | none => r
  else r

/-- Source `topLevelAncestor` (context.ts:1578): the direct root child
above the node, `none` for the root itself. -/
def topLevelAncestor (r : NodeRef) : Option NodeRef :=
  match r with
  | [] => none
  | i :: _ => some [i]

/-- Source `nearestFunctionFrom` (context.ts:1514). -/
def nearestFunctionFrom (root : STree) (r : NodeRef) : Option NodeRef :=
  let step : NodeRef → Option NodeRef := fun cur =>
    let n := nodeAtD root cur
    if isFunctionLikeType n.data.type then some cur
    else if isFunctionBodyType n.data.type then
      match parentRefOf cur with
      | some pr =>
        if isFunctionLikeType (typeAt root pr) then some pr else none
      | none => none
    else if n.data.type == "arguments" then
      match n.children.findIdx? (fun c => isFunctionLikeType c.data.type) with
      | some j => some (cur ++ [j])
      | none => none
    else none
  ((selfAndAncestors r).map step).findSome? id

/-- Scan for the nearest preceding named non-missing sibling
(`previousNamedSibling`, context.ts:1596). -/
def findPrevNamed (siblings : List STree) : Nat → Option Nat
  | 0 => none
  | j + 1 =>
    match siblings.get? j with
    | some c =>
      if c.data.isNamed && !c.data.isMissing then some j else findPrevNamed siblings j
    | none => findPrevNamed siblings j

def findNextNamedGo : List STree → Nat → Option Nat
  | [], _ => none
  | c :: rest, j =>
    if c.data.isNamed && !c.data.isMissing then some j else findNextNamedGo rest (j + 1)

def previousNamedSiblingRef (root : STree) (r : NodeRef) : Option NodeRef :=
  match parentRefOf r with
  | none => none
  | some pr =>
    match findPrevNamed (nodeAtD root pr).children (lastIdxOf r) with
    | some j => some (pr ++ [j])
    | none => none

def nextNamedSiblingRef (root : STree) (r : NodeRef) : Option NodeRef :=
  match parentRefOf r with
  | none => none
  | some pr =>
    let sibs := (nodeAtD root pr).children
    match findNextNamedGo (sibs.drop (lastIdxOf r + 1)) (lastIdxOf r + 1) with
    | some j => some (pr ++ [j])
    | none => none

/-- Source `nodeOrAncestorsHaveError` (context.ts:654). -/
def nodeOrAncestorsHaveError (root : STree) (r : NodeRef) : Bool :=
  (selfAndAncestors r).any (fun a =>
    let n := nodeAtD root a
    n.data.hasErr || n.data.isMissing) || root.data.hasErr

/-! ### Range expansion (context.ts:1623-1697) -/

def TextModel.lineEndColumn (m : TextModel) (ln : Int) : Nat :=
  m.getLineMaxColumn ln

def TextModel.lineEndColumnAtOffset (m : TextModel) (off : Nat) : Nat :=
  m.lineEndColumn (m.getPositionAt (off : Int)).lineNumber

/-- Source `expandNodeToFullLines` (context.ts:1661). -/
def expandNodeToFullLines (m : TextModel) (n : STree) : Rng :=
  let s := m.getOffsetAt ⟨n.data.startPos.row + 1, 1⟩
  let e := m.getOffsetAt ⟨n.data.endPos.row + 1, (m.lineEndColumn (n.data.endPos.row + 1) : Int)⟩
  ⟨s, e⟩

/-- Backward scan over the preceding siblings used by
`expandNodeToFullLinesWithLeadingComments` (context.ts:1623): follow
contiguous `comment` siblings and return the final start row. -/
def leadingCommentStartRow (siblings : List STree) : Nat → Int → Int
  | 0, row => row
  | j + 1, row =>
    match siblings.get? j with
    | some p =>
      if p.data.type == "comment" && decide (p.data.endPos.row + 1 = row) then
        leadingCommentStartRow siblings j p.data.startPos.row
      else row
    | none => row

/-- Source `expandNodeToFullLinesWithLeadingComments` (context.ts:1623). -/
def expandNodeToFullLinesWithLeadingComments (root : STree) (m : TextModel)
    (r : NodeRef) : Rng :=
  let n := nodeAtD root r
  let startRow :=
    match parentRefOf r with
    | some pr =>
      leadingCommentStartRow (nodeAtD root pr).children (lastIdxOf r) n.data.startPos.row
    | none => n.data.startPos.row
  let s := m.getOffsetAt ⟨startRow + 1, 1⟩
  let e := m.getOffsetAt ⟨n.data.endPos.row + 1, (m.lineEndColumn (n.data.endPos.row + 1) : Int)⟩
  ⟨s, e⟩

/-! ### Incremental parse manager (context.ts:384-601) -/

/-- Source `PendingEdit` entries (context.ts:403). -/
structure PendingEdit where
  startIndex : Nat
  oldEndIndex : Nat
  newEndIndex : Nat
  startPosition : Pt
  oldEndPosition : Pt
  newEndPosition : Pt
  deriving Repr, DecidableEq, Inhabited

/-- Instance state of `ContextExtractor` (context.ts:384-420). -/
structure ExtractorState where
  model : TextModel
  tree : Option STree
  dirty : Bool
  pendingEdits : List PendingEdit
  lastParseTime : Nat
  deriving Inhabited

/-- External web-tree-sitter operations: `parse(text, previousTree?)`
(`none` models a parse call that throws or yields nothing) and
`tree.edit(e)`. -/
structure ParserFns where
  parse : Chars → Option STree → Option STree
  editTree : STree → PendingEdit → STree

/-- Source `getTreeStatus` (context.ts:468). -/
structure TreeStatus where
  isDirty : Bool
  hasTree : Bool
  pendingEditsCount : Nat
  lastParseTime : Nat
  deriving Repr, DecidableEq, Inhabited

def getTreeStatus (s : ExtractorState) : TreeStatus :=
  ⟨s.dirty, s.tree.isSome, s.pendingEdits.length, s.lastParseTime⟩

/-- JS line-ending normalization `text.replace(/\r\n?/g, "\n")`. -/
def normalizeNewlines : Chars → Chars
  | [] => []
  | c :: rest =>
    if c = '\r' then
      match rest with
      | [] => ['\n']
      | d :: rest2 =>
        if d = '\n' then '\n' :: normalizeNewlines rest2
        else '\n' :: normalizeNewlines (d :: rest2)
    else c :: normalizeNewlines rest

/-- JS `norm.split("\n")` (always at least one fragment). -/
def splitOnNl : Chars → List Chars
  | [] => [[]]
  | c :: rest =>
    if c = '\n' then [] :: splitOnNl rest
    else
      match splitOnNl rest with
      | [] => [[c]]
      | f :: fs => (c :: f) :: fs

/-- Source `advancePointByText` (context.ts:557). -/
def advancePointByText (start : Pt) (text : Chars) : Pt :=
  let lines := splitOnNl (normalizeNewlines text)
  if lines.length = 1 then
    ⟨start.row, start.column + ((lines.headD []).length : Int)⟩
  else
    ⟨start.row + ((lines.length : Int) - 1), ((lines.getLastD []).length : Int)⟩

/-- One Monaco content change (`{range, rangeOffset, rangeLength, text}`). -/
structure ModelContentChange where
  range : RangeLC
  rangeOffset : Nat
  rangeLength : Nat
  text : Chars
  deriving Repr, DecidableEq, Inhabited

def changeToPendingEdit (c : ModelContentChange) : PendingEdit :=
  let startPosition : Pt := ⟨c.range.startLineNumber - 1, c.range.startColumn - 1⟩
  let oldEndPosition : Pt := ⟨c.range.endLineNumber - 1, c.range.endColumn - 1⟩
  { startIndex := c.rangeOffset
    oldEndIndex := c.rangeOffset + c.rangeLength
    newEndIndex := c.rangeOffset + c.text.length
    startPosition := startPosition
    oldEndPosition := oldEndPosition
    newEndPosition := advancePointByText startPosition c.text }

/-- Source `onModelContentChanged` (context.ts:507).  The Monaco model
object is shared and already holds the post-change text when the event
fires; `newModel` is that updated buffer. -/
def onModelContentChanged (s : ExtractorState) (newModel : TextModel)
    (changes : List ModelContentChange) : ExtractorState :=
  let sorted := jsSort (fun a b => decide (a.rangeOffset ≤ b.rangeOffset)) changes
  { s with
    model := newModel
    pendingEdits := s.pendingEdits ++ sorted.map changeToPendingEdit
    dirty := true }

/-- Source `ensureIncrementalParseUpToDate` (context.ts:580).  A parse
that throws is not caught by the source, so it surfaces as `.error ()`. -/
def ensureIncrementalParseUpToDate (P : ParserFns) (now : Nat)
    (s : ExtractorState) : Except Unit ExtractorState :=
  if !s.dirty then .ok s
  else
    match s.tree with
    | none =>
      match P.parse s.model.value none with
      | none => .error ()
      | some t =>
        .ok { s with tree := some t, pendingEdits := [], dirty := false, lastParseTime := now }
    | some t =>
      let edited := s.pendingEdits.foldl P.editTree t
      match P.parse s.model.value (some edited) with
      | none => .error ()
      | some t2 =>
        .ok { s with tree := some t2, pendingEdits := [], dirty := false, lastParseTime := now }

/-- Source `forceBuildTree` (context.ts:481). -/
def forceBuildTree (P : ParserFns) (now : Nat) (s : ExtractorState) :
    Except Unit ExtractorState :=
  ensureIncrementalParseUpToDate P now s

/-- Source `ContextExtractor.create` (context.ts:445): first parse; a
failure here rejects the creation (setup failure). -/
def createExtractor (P : ParserFns) (now : Nat) (m : TextModel) :
    Except Unit ExtractorState :=
  match P.parse m.value none with
  | none => .error ()
  | some t =>
    .ok { model := m, tree := some t, dirty := false, pendingEdits := [], lastParseTime := now }

/-! ### Cursor strategy selection (context.ts:672-1015) -/

inductive Strategy where
  | enclosingFunction
  | adjacentTopLevelBlocks
  | fallbackLines
  | topLevelWithSyntaxSanity
  | enclosingBlockWithContext
  deriving Repr, DecidableEq, Inhabited

structure ExtractContextResult where
  text : Chars
  startOffset : Nat
  endOffset : Nat
  strategy : Strategy
  deriving Repr, DecidableEq, Inhabited

/-- Options bag shared by the extraction queries (context.ts:83-157). -/
structure ContextOptions where
  fallbackLineWindow : Option Nat := none
  nestingLevel : Option Nat := none
  maxCharsBudget : Option Int := none
  tierPercents : Option (Fr × Fr × Fr × Fr) := none
  includeLeadingComments : Option Bool := none
  rawPrefixLines : Option Nat := none
  rawSuffixLines : Option Nat := none
  numberOfPrefixLines : Option Nat := none
  numberOfSuffixLines : Option Nat := none
  debug : Bool := false

def isJsWordChar (c : Char) : Bool := isAlnum c || c = '_'

def isSpaceLike (c : Char) : Bool := c.isWhitespace

/-- Matches `pm\.test\s*\(` at the head of the character list. -/
def matchPmTestHead (l : Chars) : Bool :=
  isPrefixOfChars ("pm.test".toList) l &&
    (match (l.drop 7).dropWhile isSpaceLike with
     | c :: _ => c = '('
     | [] => false)

/-- Matches `function\b` at the head of the character list. -/
def matchFunctionWordHead (l : Chars) : Bool :=
  isPrefixOfChars ("function".toList) l &&
    (match l.drop 8 with
     | c :: _ => !isJsWordChar c
     | [] => true)

/-- Matches `=>\s*\{?$` at the head of the character list. -/
def matchArrowEndHead (l : Chars) : Bool :=
  isPrefixOfChars ("=>".toList) l &&
    (match (l.drop 2).dropWhile isSpaceLike with
     | [] => true
     | c :: rest => c = braceL && rest.isEmpty)

/-- The test `/\b(pm\.test\s*\(|function\b|=>\s*\{?$)/.test(near)`
(context.ts:696); `prev` tracks whether the previous character is a
word character, giving the `\b` boundary. -/
def startsCallOrFnGo : Bool → Chars → Bool
  | _, [] => false
  | prev, l@(c :: rest) =>
    ((!prev) && (matchPmTestHead l || matchFunctionWordHead l)) ||
    (prev && matchArrowEndHead l) ||
    startsCallOrFnGo (isJsWordChar c) rest

def startsCallOrFn (l : Chars) : Bool := startsCallOrFnGo false l

def parenBraceCount (text : Chars) : Nat × Nat :=
  text.foldl
    (fun (pb : Nat × Nat) c =>
      if c = '(' then (pb.1 + 1, pb.2)
      else if c = ')' then (pb.1 - 1, pb.2)
      else if c = braceL then (pb.1, pb.2 + 1)
      else if c = braceR then (pb.1, pb.2 - 1)
      else pb)
    (0, 0)

/-- Source `isLikelyUnfinishedNearCursor` (context.ts:672).  The running
`Math.max(0, n - 1)` clamp coincides with `Nat` subtraction. -/
def isLikelyUnfinishedNearCursor (m : TextModel) (cursor : Position) : Bool :=
  let total := (m.getLineCount : Int)
  let from0 := max 1 (cursor.lineNumber - 2)
  let to0 := min total (cursor.lineNumber + 30)
  let text := m.getValueInRange ⟨from0, 1, to0, (m.lineEndColumn to0 : Int)⟩
  let pb := parenBraceCount text
  let near := m.getLineContent cursor.lineNumber
  decide (0 < pb.1) || decide (0 < pb.2) || startsCallOrFn near

/-- Source `rawLinesAround` (context.ts:711). -/
def rawLinesAround (m : TextModel) (cursor : Position)
    (beforeLines afterLines : Nat) : ExtractContextResult :=
  let total := (m.getLineCount : Int)
  let startLine := max 1 (cursor.lineNumber - (beforeLines : Int))
  let endLine := min total (cursor.lineNumber + (afterLines : Int))
  let startOffset := m.getOffsetAt ⟨startLine, 1⟩
  let endOffset := m.getOffsetAt ⟨endLine, (m.lineEndColumn endLine : Int)⟩
  let text := m.getValueInRange ⟨startLine, 1, endLine, (m.lineEndColumn endLine : Int)⟩
  ⟨text, startOffset, endOffset, .fallbackLines⟩

/-- Source `isCursorAtTopLevel` (context.ts:1349). -/
def isCursorAtTopLevel (root : STree) (cursor : Position) (fuel : Nat) : Bool :=
  let r := descendantForPosition fuel root
    ⟨cursor.lineNumber - 1, cursor.column - 1⟩
  !(chainBelowRoot r).any (fun a => isEnclosingBlockType (typeAt root a))

/-- Source `getCurrentEnclosingBlock` (context.ts:1397). -/
def getCurrentEnclosingBlock (root : STree) (cursor : Position) (fuel : Nat) :
    Option NodeRef :=
  let r := descendantForPosition fuel root
    ⟨cursor.lineNumber - 1, cursor.column - 1⟩
  (chainBelowRoot r).find? (fun a => isEnclosingBlockType (typeAt root a))

/-- Source `expandWithSyntaxSanity` (context.ts:1444).  The tree may be
absent, in which case the inputs are returned unchanged. -/
def expandWithSyntaxSanity (tree : Option STree) (m : TextModel)
    (startLine endLine : Int) (fuel : Nat) : Int × Int :=
  match tree with
  | none => (startLine, endLine)
  | some root =>
    let totalLines := (m.getLineCount : Int)
    let adjustedStart := max 1 startLine
    let adjustedEnd := min totalLines endLine
    let startRef := descendantForPosition fuel root ⟨adjustedStart - 1, 0⟩
    let adjustedStart :=
      match (chainBelowRoot startRef).find? (fun a =>
          let n := nodeAtD root a
          isWholeBlockCandidateType n.data.type &&
            (decide (n.data.startPos.row + 1 < adjustedStart) &&
             decide (adjustedStart ≤ n.data.endPos.row + 1))) with
      | some a => (nodeAtD root a).data.startPos.row + 1
      | none => adjustedStart
    let endRef := descendantForPosition fuel root ⟨adjustedEnd - 1, 0⟩
    let adjustedEnd :=
      match (chainBelowRoot endRef).find? (fun a =>
          let n := nodeAtD root a
          isWholeBlockCandidateType n.data.type &&
            (decide (n.data.startPos.row + 1 ≤ adjustedEnd) &&
             decide (adjustedEnd < n.data.endPos.row + 1))) with
      | some a => (nodeAtD root a).data.endPos.row + 1
      | none => adjustedEnd
    (max 1 adjustedStart, min totalLines adjustedEnd)

/-- Source `extractLinesRange` (context.ts:993). -/
def extractLinesRange (m : TextModel) (startLine endLine : Int)
    (strategy : Strategy) : ExtractContextResult :=
  let startOffset := m.getOffsetAt ⟨startLine, 1⟩
  let endOffset := m.getOffsetAt ⟨endLine, (m.lineEndColumn endLine : Int)⟩
  let text := m.getValueInRange ⟨startLine, 1, endLine, (m.lineEndColumn endLine : Int)⟩
  ⟨text, startOffset, endOffset, strategy⟩

/-- Source `mergeRanges` (context.ts:631). -/
def mergeRanges (ranges : List Rng) : List Rng :=
  let sorted := jsSort (fun a b => decide (a.startOffset ≤ b.startOffset)) ranges
  (sorted.foldl
    (fun acc r =>
      match acc with
      | [] => [r]
      | last :: rest =>
        if r.startOffset ≥ last.endOffset then r :: last :: rest
        else ⟨last.startOffset, max last.endOffset r.endOffset⟩ :: rest)
    []).reverse

/-- Source `collectWholeBlocksIntersectingWindow` (context.ts:1296). -/
def collectWholeBlocksIntersectingWindow (root : STree) (m : TextModel)
    (startLine endLine : Int) : List (Rng × NodeRef) :=
  let picked :=
    (List.range root.children.length).filterMap (fun i =>
      match root.children.get? i with
      | none => none
      | some child =>
        if !child.data.isNamed then none
        else if !isWholeBlockCandidateType child.data.type then none
        else
          let s := child.data.startPos.row + 1
          let e := child.data.endPos.row + 1
          if decide (e < startLine) || decide (s > endLine) then none
          else
            let container := wholeBlockContainer root [i]
            some (expandNodeToFullLinesWithLeadingComments root m container, container))
  jsSort (fun a b => decide (a.1.startOffset ≤ b.1.startOffset)) picked

/-- Source `hybridUnfinishedAround` (context.ts:756). -/
def hybridUnfinishedAround (root : STree) (m : TextModel) (cursor : Position)
    (beforeLines afterLines : Nat) (fuel : Nat) : ExtractContextResult :=
  let total := (m.getLineCount : Int)
  let startLine := max 1 (cursor.lineNumber - (beforeLines : Int))
  let endLine := min total (cursor.lineNumber + (afterLines : Int))
  let nodeAt := descendantForPosition fuel root ⟨cursor.lineNumber - 1, cursor.column - 1⟩
  let container : Option NodeRef :=
    ((selfAndAncestors nodeAt).map (fun cur =>
      let ty := typeAt root cur
      if isFunctionLikeType ty then some (wrapFunctionIfArgument root cur)
      else if isWholeBlockCandidateType ty then some (wholeBlockContainer root cur)
      else none)).findSome? id
  match container with
  | none => rawLinesAround m cursor beforeLines afterLines
  | some cref =>
    let unfinishedStart := (expandNodeToFullLinesWithLeadingComments root m cref).startOffset
    let unfinishedEnd :=
      m.getOffsetAt ⟨cursor.lineNumber, (m.lineEndColumn cursor.lineNumber : Int)⟩
    let unfinishedRange : Rng := ⟨unfinishedStart, unfinishedEnd⟩
    let top := (topLevelAncestor cref).getD cref
    let neighborRanges :=
      ((previousNamedSiblingRef root top).toList ++ (nextNamedSiblingRef root top).toList).map
        (fun nref => expandNodeToFullLinesWithLeadingComments root m nref)
    let windowBlocks :=
      (collectWholeBlocksIntersectingWindow root m startLine endLine).map (fun rb => rb.1)
    let merged := mergeRanges ([unfinishedRange] ++ neighborRanges ++ windowBlocks)
    let startOffset := (merged.headD ⟨0, 0⟩).startOffset
    let endOffset := (merged.getLastD ⟨0, 0⟩).endOffset
    let text := m.getValueInRange
      ⟨(m.getPositionAt (startOffset : Int)).lineNumber, 1,
        (m.getPositionAt (endOffset : Int)).lineNumber,
        (m.lineEndColumnAtOffset endOffset : Int)⟩
    ⟨text, startOffset, endOffset, .fallbackLines⟩

/-- Pure part of `getContextAroundCursor` (context.ts:869), applied to a
state whose tree is already current. -/
def getContextAroundCursorPure (s : ExtractorState) (cursor : Position)
    (opts : ContextOptions) (fuel : Nat) : ExtractContextResult :=
  let prefixLines :=
    (opts.numberOfPrefixLines.orElse (fun _ =>
      opts.rawPrefixLines.orElse (fun _ => opts.fallbackLineWindow))).getD 5
  let suffixLines :=
    (opts.numberOfSuffixLines.orElse (fun _ =>
      opts.rawSuffixLines.orElse (fun _ => opts.fallbackLineWindow))).getD 5
  let m := s.model
  match s.tree with
  | none =>
    let se := expandWithSyntaxSanity none m
      (cursor.lineNumber - (prefixLines : Int)) (cursor.lineNumber + (suffixLines : Int)) fuel
    extractLinesRange m se.1 se.2 .fallbackLines
  | some root =>
    let nodeAtCursor := descendantForPosition fuel root
      ⟨cursor.lineNumber - 1, cursor.column - 1⟩
    let shouldUseRaw :=
      nodeOrAncestorsHaveError root nodeAtCursor || isLikelyUnfinishedNearCursor m cursor
    if shouldUseRaw then hybridUnfinishedAround root m cursor prefixLines suffixLines fuel
    else if isCursorAtTopLevel root cursor fuel then
      let se := expandWithSyntaxSanity (some root) m
        (cursor.lineNumber - (prefixLines : Int)) (cursor.lineNumber + (suffixLines : Int)) fuel
      extractLinesRange m se.1 se.2 .topLevelWithSyntaxSanity
    else
      match getCurrentEnclosingBlock root cursor fuel with
      | some enclosingBlock =>
        let topmostParent := (topLevelAncestor enclosingBlock).getD enclosingBlock
        let blockRange :=
          if opts.includeLeadingComments.getD true then
            expandNodeToFullLinesWithLeadingComments root m enclosingBlock
          else expandNodeToFullLines m (nodeAtD root enclosingBlock)
        let parentRange := expandNodeToFullLines m (nodeAtD root topmostParent)
        let parentStartLine := (m.getPositionAt (parentRange.startOffset : Int)).lineNumber
        let parentEndLine := (m.getPositionAt (parentRange.endOffset : Int)).lineNumber
        let pre := expandWithSyntaxSanity (some root) m
          (parentStartLine - (prefixLines : Int)) (parentStartLine - 1) fuel
        let suf := expandWithSyntaxSanity (some root) m
          (parentEndLine + 1) (parentEndLine + (suffixLines : Int)) fuel
        let finalStartLine :=
          min pre.1 (m.getPositionAt (blockRange.startOffset : Int)).lineNumber
        let finalEndLine :=
          max suf.2 (m.getPositionAt (blockRange.endOffset : Int)).lineNumber
        extractLinesRange m finalStartLine finalEndLine .enclosingBlockWithContext
      | none =>
        let se := expandWithSyntaxSanity (some root) m
          (cursor.lineNumber - (prefixLines : Int)) (cursor.lineNumber + (suffixLines : Int)) fuel
        extractLinesRange m se.1 se.2 .fallbackLines

/-- Source `getContextAroundCursor` (context.ts:869): ensure the tree is
current, then extract. -/
def getContextAroundCursorE (P : ParserFns) (now : Nat) (s : ExtractorState)
    (cursor : Position) (opts : ContextOptions) (fuel : Nat) :
    Except Unit (ExtractContextResult × ExtractorState) := do
  let s' ← ensureIncrementalParseUpToDate P now s
  .ok (getContextAroundCursorPure s' cursor opts fuel, s')

/-! ### Identifier walks (context.ts:1195-1221, 1760-2074) -/

def firstNamedIdx (n : STree) : Option Nat :=
  n.children.findIdx? (fun c => c.data.isNamed)

def nameFieldIdx (n : STree) : Option Nat :=
  n.children.findIdx? (fun c => c.data.fieldName == some "name")

def keyFieldIdx (n : STree) : Option Nat :=
  n.children.findIdx? (fun c => c.data.fieldName == some "key")

/-- Pairs each named child with its absolute child index. -/
def namedChildrenWithIdx (n : STree) : List (Nat × STree) :=
  (List.range n.children.length).filterMap (fun j =>
    match n.children.get? j with
    | some c => if c.data.isNamed then some (j, c) else none
    | none => none)

/-- Source `extractDeclarationNames` (context.ts:1195). -/
def collectDeclaratorNames (fuel : Nat) (n : STree) : List String :=
  match fuel with
  | 0 => []
  | fuel + 1 =>
    (if n.data.type == "variable_declarator" then
      match n.childForFieldName "name" with
      | some id =>
        if id.data.type == "identifier" && !id.data.text.isEmpty then [id.data.text] else []
      | none => []
    else []) ++
      n.namedChildren.foldl (fun acc c => acc ++ collectDeclaratorNames fuel c) []

def extractDeclarationNames (fuel : Nat) (n : STree) : List String :=
  if n.data.type == "function_declaration" then
    match n.childForFieldName "name" with
    | some id => if id.data.text.isEmpty then [] else [id.data.text]
    | none => []
  else if n.data.type == "lexical_declaration" || n.data.type == "variable_declaration" then
    collectDeclaratorNames fuel n
  else []

/-- Definition-site flag for the reads walk of `freeIdentifiersOf`
(context.ts:1780): child `j` of `n` is a defining identifier position.
Pointer identity `parent.firstNamedChild === n` is rendered as index
equality. -/
def readDefFlag (n : STree) (j : Nat) : Bool :=
  (n.data.type == "variable_declarator" && firstNamedIdx n == some j) ||
  (n.data.type == "function_declaration" && nameFieldIdx n == some j)

/-- Reads walk of `freeIdentifiersOf` (context.ts:1776), in occurrence
order; `isDefSite` is the flag for the node itself. -/
def collectReadsGo (fuel : Nat) (isDefSite : Bool) (n : STree) : List String :=
  match fuel with
  | 0 => []
  | fuel + 1 =>
    (if n.data.type == "identifier" && !isDefSite && !n.data.text.isEmpty then
      [n.data.text]
    else []) ++
      (namedChildrenWithIdx n).foldl
        (fun acc jc => acc ++ collectReadsGo fuel (readDefFlag n jc.1) jc.2) []

/-- Defs walk of `freeIdentifiersOf` (context.ts:1765), in occurrence
order. -/
def collectDefsGo (fuel : Nat) (n : STree) : List String :=
  match fuel with
  | 0 => []
  | fuel + 1 =>
    (if n.data.type == "function_declaration" then
      match n.childForFieldName "name" with
      | some id => if id.data.text.isEmpty then [] else [id.data.text]
      | none => []
    else if n.data.type == "variable_declarator" then
      match n.childForFieldName "name" with
      | some id =>
        if id.data.type == "identifier" && !id.data.text.isEmpty then [id.data.text] else []
      | none => []
    else []) ++
      n.namedChildren.foldl (fun acc c => acc ++ collectDefsGo fuel c) []

/-- Definition-site flag of a node relative to its true parent,
recovered through its ref (used at the top of a walk). -/
def topReadDefFlag (root : STree) (r : NodeRef) : Bool :=
  match parentRefOf r with
  | some pr => readDefFlag (nodeAtD root pr) (lastIdxOf r)
  | none => false

/-- Source `freeIdentifiersOf` (context.ts:1760): reads minus defs, as
insertion-ordered sets. -/
def freeIdentifiersOf (fuel : Nat) (root : STree) (r : NodeRef) : List String :=
  let n := nodeAtD root r
  let defs := dedupPreserve (collectDefsGo fuel n)
  let reads := dedupPreserve (collectReadsGo fuel (topReadDefFlag root r) n)
  reads.filter (fun x => !(defs.contains x))

/-- Definition-site flag of `analyzeGlobalUsageFrequency`
(context.ts:1816), which additionally treats `property_definition`
keys as definitions. -/
def usageDefFlag (n : STree) (j : Nat) : Bool :=
  readDefFlag n j ||
    (n.data.type == "property_definition" && keyFieldIdx n == some j)

/-- Usage-occurrence walk of `analyzeGlobalUsageFrequency`
(context.ts:1805); the count map is recovered via `List.count`. -/
def usageListGo (fuel : Nat) (isDefSite : Bool) (n : STree) : List String :=
  match fuel with
  | 0 => []
  | fuel + 1 =>
    (if n.data.type == "identifier" && !isDefSite && !n.data.text.isEmpty then
      [n.data.text]
    else []) ++
      (namedChildrenWithIdx n).foldl
        (fun acc jc => acc ++ usageListGo fuel (usageDefFlag n jc.1) jc.2) []

def analyzeGlobalUsageList (fuel : Nat) (root : STree) : List String :=
  usageListGo fuel false root

/-- Source `getIdentifiersUsedInCurrentScope` (context.ts:1846). -/
def getIdentifiersUsedInCurrentScope (root : STree) (cursor : Position)
    (fuel : Nat) : List String :=
  match getCurrentEnclosingBlock root cursor fuel with
  | none => dedupPreserve (analyzeGlobalUsageList fuel root)
  | some enclosingBlock =>
    let topmostParent := (topLevelAncestor enclosingBlock).getD enclosingBlock
    dedupPreserve
      (collectReadsGo fuel (topReadDefFlag root topmostParent) (nodeAtD root topmostParent))

/-- Source `collectIdentifiersInRange` (context.ts:1978): reads and
calls inside an offset range, found by a row-overlap walk of the whole
tree; identifier names are taken from the model at node positions. -/
def rangeWalkGo (m : TextModel) (loRow hiRow : Int) (fuel : Nat)
    (isDefSite isCallee : Bool) (n : STree) : List String × List String :=
  match fuel with
  | 0 => ([], [])
  | fuel + 1 =>
    if decide (n.data.endPos.row < loRow) || decide (n.data.startPos.row > hiRow) then
      ([], [])
    else
      let name := m.getValueInRange
        ⟨n.data.startPos.row + 1, n.data.startPos.column + 1,
          n.data.endPos.row + 1, n.data.endPos.column + 1⟩
      let here : List String × List String :=
        if n.data.type == "identifier" && !name.isEmpty then
          ((if !isDefSite then [name.asString] else []),
           (if isCallee then [name.asString] else []))
        else ([], [])
      (namedChildrenWithIdx n).foldl
        (fun acc jc =>
          let flagDef :=
            ((n.data.type == "variable_declarator" || n.data.type == "function_declaration") &&
              firstNamedIdx n == some jc.1)
          let flagCallee := n.data.type == "call_expression" && jc.1 == 0
          let sub := rangeWalkGo m loRow hiRow fuel flagDef flagCallee jc.2
          (acc.1 ++ sub.1, acc.2 ++ sub.2))
        here

def collectIdentifiersInRange (root : STree) (m : TextModel)
    (startOffset endOffset : Nat) (fuel : Nat) : List String × List String :=
  let loRow := (m.getPositionAt (startOffset : Int)).lineNumber - 1
  let hiRow := (m.getPositionAt (endOffset : Int)).lineNumber - 1
  let rc := rangeWalkGo m loRow hiRow fuel false false root
  (dedupPreserve rc.1, dedupPreserve rc.2)

/-- Source `collectDefsForBlock` (context.ts:2040). -/
def collectDefsForBlock (fuel : Nat) (n : STree) : List String :=
  if n.data.type == "function_declaration" then
    match n.childForFieldName "name" with
    | some id => if id.data.text.isEmpty then [] else [id.data.text]
    | none => []
  else if n.data.type == "call_expression" || n.data.type == "expression_statement" then
    []
  else if n.data.type == "lexical_declaration" || n.data.type == "variable_declaration" then
    dedupPreserve (collectDeclaratorNames fuel n)
  else []

/-! ### Candidate collectors (context.ts:2077-2172, 2534-2596) -/

/-- A collected block: offsets plus the node (as a ref) and a kind tag
(`BlockRange` / `TopBlock` in the source). -/
structure BlockRange where
  startOffset : Nat
  endOffset : Nat
  ref : NodeRef
  kind : String
  deriving Repr, DecidableEq, Inhabited

def BlockRange.rng (b : BlockRange) : Rng := ⟨b.startOffset, b.endOffset⟩

/-- Source `collectGlobalBlockCandidates` (context.ts:2077). -/
def collectGlobalBlockCandidates (root : STree) (m : TextModel) : List BlockRange :=
  (List.range root.children.length).filterMap (fun i =>
    match root.children.get? i with
    | none => none
    | some child =>
      if !child.data.isNamed then none
      else if !isWholeBlockCandidateType child.data.type then none
      else if child.data.type == "function_declaration" ||
          child.data.type == "lexical_declaration" ||
          child.data.type == "variable_declaration" then
        let container := wholeBlockContainer root [i]
        let r := expandNodeToFullLinesWithLeadingComments root m container
        let kind :=
          if child.data.type == "lexical_declaration" ||
              child.data.type == "variable_declaration" then "declaration"
          else child.data.type
        some ⟨r.startOffset, r.endOffset, container, kind⟩
      else none)

/-- Recognizer for `pm.test(...)` callees (context.ts:2142-2153). -/
def isPmTestCall (call : STree) : Bool :=
  match call.child 0 with
  | some callee =>
    if callee.data.type == "member_expression" then
      match callee.child 0, callee.child 2 with
      | some obj, some prop =>
        obj.data.type == "identifier" && obj.data.text == "pm" && prop.data.text == "test"
      | _, _ => false
    else false
  | none => false

/-- Source `collectOtherTestBlocks` (context.ts:2118). -/
def collectOtherTestBlocks (root : STree) (m : TextModel)
    (excludeRange : Option Rng) : List BlockRange :=
  (List.range root.children.length).filterMap (fun i =>
    match root.children.get? i with
    | none => none
    | some st =>
      if !st.data.isNamed then none
      else
        let callRef : Option NodeRef :=
          if st.data.type == "expression_statement" && st.namedChildren.length == 1 &&
              ((st.namedChildren.headD default).data.type == "call_expression") then
            match st.children.findIdx? (fun c => c.data.isNamed) with
            | some j => some [i, j]
            | none => none
          else if st.data.type == "call_expression" then some [i]
          else none
        match callRef with
        | none => none
        | some cr =>
          let call := nodeAtD root cr
          if !isPmTestCall call then none
          else
            let r := expandNodeToFullLinesWithLeadingComments root m cr
            match excludeRange with
            | some ex =>
              if !(decide (r.endOffset ≤ ex.startOffset) ||
                  decide (r.startOffset ≥ ex.endOffset)) then none
              else some ⟨r.startOffset, r.endOffset, cr, "pm_test"⟩
            | none => some ⟨r.startOffset, r.endOffset, cr, "pm_test"⟩)

def anyNodeOfType (fuel : Nat) (p : String → Bool) (n : STree) : Bool :=
  match fuel with
  | 0 => false
  | fuel + 1 =>
    p n.data.type || n.namedChildren.any (fun c => anyNodeOfType fuel p c)

/-- Source `collectTopLevelBlocks` (context.ts:2534). -/
def collectTopLevelBlocks (root : STree) (m : TextModel) (fuel : Nat) :
    List BlockRange :=
  let blocks :=
    (List.range root.children.length).filterMap (fun i =>
      match root.children.get? i with
      | none => none
      | some st =>
        if !st.data.isNamed then none
        else
          let push : NodeRef → String → Option BlockRange := fun nref kind =>
            let r := expandNodeToFullLinesWithLeadingComments root m nref
            some ⟨r.startOffset, r.endOffset, nref, kind⟩
          let asCallRef : Option NodeRef :=
            if st.data.type == "expression_statement" then
              match st.children.findIdx? (fun c => c.data.isNamed) with
              | some j => some [i, j]
              | none => none
            else some [i]
          let pmHit :=
            match asCallRef with
            | some cr =>
              let c := nodeAtD root cr
              if c.data.type == "call_expression" && isPmTestCall c then some cr else none
            | none => none
          match pmHit with
          | some cr => push cr "pm_test"
          | none =>
            if st.data.type == "function_declaration" then push [i] "function_declaration"
            else if st.data.type == "lexical_declaration" ||
                st.data.type == "variable_declaration" then
              if anyNodeOfType fuel (fun ty => ty == "arrow_function") st then
                push [i] "arrow_function_decl"
              else if anyNodeOfType fuel
                  (fun ty => ty == "function_expression" || ty == "function") st then
                push [i] "function_expression_decl"
              else push [i] st.data.type
            else none)
  jsSort (fun a b => decide (a.startOffset ≤ b.startOffset)) blocks

/-- Source `buildGlobalIndex` (context.ts:1905); `Map.set` overwrites,
so lookups take the last binding. -/
def buildGlobalIndex (root : STree) (m : TextModel) (fuel : Nat) :
    List (String × BlockRange) :=
  (collectGlobalBlockCandidates root m).foldl
    (fun acc g =>
      let n := nodeAtD root g.ref
      let names :=
        if n.data.type == "function_declaration" then
          match n.childForFieldName "name" with
          | some id => if id.data.text.isEmpty then [] else [id.data.text]
          | none => []
        else if n.data.type == "lexical_declaration" ||
            n.data.type == "variable_declaration" then
          collectDeclaratorNames fuel n
        else []
      acc ++ names.map (fun nm => (nm, g)))
    []

def indexLookup (idx : List (String × BlockRange)) (name : String) :
    Option BlockRange :=
  (idx.reverse.find? (fun e => e.1 == name)).map (fun e => e.2)

/-! ### Comment text and test titles (context.ts:1707-1733, 2361-2419) -/

def TextModel.getLineText (m : TextModel) (lineNumber : Int) : Chars :=
  m.getLineContent (max 1 (min lineNumber (m.getLineCount : Int)))

def isCommentLine (l : Chars) : Bool :=
  isPrefixOfChars ['/', '/'] (l.dropWhile isSpaceLike)

def isBlankLine (l : Chars) : Bool := (l.dropWhile isSpaceLike).isEmpty

/-- Removes one `^\s*\/\/\s?` prefix match (context.ts:2382). -/
def stripCommentLine (l : Chars) : Chars :=
  let rest := l.dropWhile isSpaceLike
  if isPrefixOfChars ['/', '/'] rest then
    match rest.drop 2 with
    | c :: tail => if isSpaceLike c then tail else c :: tail
    | [] => []
  else l

def trimChars (l : Chars) : Chars :=
  ((l.dropWhile isSpaceLike).reverse.dropWhile isSpaceLike).reverse

def lcScanGo (m : TextModel) : Nat → Int → Int
  | 0, s => s
  | f + 1, s =>
    if decide (0 < s) &&
        (isCommentLine (m.getLineContent s) || isBlankLine (m.getLineContent s)) then
      lcScanGo m f (s - 1)
    else s

def intRange (from0 to0 : Int) : List Int :=
  if to0 < from0 then []
  else (List.range (to0 - from0 + 1).toNat).map (fun k => from0 + (k : Int))

/-- Source `leadingCommentTextAt` (context.ts:2368). -/
def leadingCommentTextAt (m : TextModel) (lineNumber : Int) : Chars :=
  let init := max 1 (lineNumber - 1)
  let startL := lcScanGo m init.toNat init
  let from0 := startL + 1
  let to0 := max 1 (lineNumber - 1)
  let parts := (intRange from0 to0).filterMap (fun ln =>
    let t := stripCommentLine (m.getLineContent ln)
    if (trimChars t).isEmpty then none else some t)
  List.intercalate [' '] parts

def isQuoteChar (c : Char) : Bool := c = squoteC || c = dquoteC || c = backtickC

def stripOuterQuotes (l : Chars) : Chars :=
  let l1 := match l with
    | c :: rest => if isQuoteChar c then rest else c :: rest
    | [] => []
  match l1.getLast? with
  | some c => if isQuoteChar c then l1.dropLast else l1
  | none => l1

/-- Consumes `[^}]+\}` after a `${`, returning the remainder. -/
def interpTake (l : Chars) : Option Chars :=
  let body := l.takeWhile (fun c => c ≠ braceR)
  if body.isEmpty then none
  else
    match l.drop body.length with
    | _ :: rest => some rest
    | [] => none

/-- Removes all `\$\{[^}]+\}` matches (context.ts:1729). -/
def stripInterpGo : Nat → Chars → Chars
  | 0, l => l
  | _, [] => []
  | f + 1, c :: rest =>
    if c = '$' then
      match rest with
      | b :: after =>
        if b = braceL then
          match interpTake after with
          | some rem => stripInterpGo f rem
          | none => c :: stripInterpGo f rest
        else c :: stripInterpGo f rest
      | [] => [c]
    else c :: stripInterpGo f rest

def stripInterpolations (l : Chars) : Chars := stripInterpGo l.length l

/-- Source `getTestTitleFromNode` (context.ts:1707). -/
def getTestTitleFromNode (n : STree) : Option Chars :=
  if n.data.type ≠ "call_expression" then none
  else if !isPmTestCall n then none
  else
    match n.childForFieldName "arguments" with
    | none => none
    | some args =>
      if args.namedChildren.length == 0 then none
      else
        match args.namedChildren.headD default with
        | a0 =>
          if a0.data.type == "string" || a0.data.type == "template_string" then
            some (stripInterpolations (stripOuterQuotes a0.data.text.toList))
          else none

/-- Source `getTestTitleNearCursor` (context.ts:2395); the model
argument mirrors the method receiver and is unused here. -/
def getTestTitleNearCursor (root : STree) (_m : TextModel) (cursor : Position)
    (fuel : Nat) : Option Chars :=
  let nodeAt := descendantForPosition fuel root
    ⟨cursor.lineNumber - 1, cursor.column - 1⟩
  match nearestFunctionFrom root nodeAt with
  | none => none
  | some fn => getTestTitleFromNode (nodeAtD root (wrapFunctionIfArgument root fn))

/-- Source `buildQueryTokens` (context.ts:2414). -/
def buildQueryTokens (STOP : List String) (root : STree) (m : TextModel)
    (cursor : Position) (fuel : Nat) : List String :=
  let line := m.getLineText cursor.lineNumber
  let cmt := leadingCommentTextAt m cursor.lineNumber
  let title := (getTestTitleNearCursor root m cursor fuel).getD []
  cutTokenize STOP line ++ cutTokenize STOP cmt ++ cutTokenize STOP title

/-! ### Similarity machinery (context.ts:2429-2726) -/

def firstIdentifierTextGo (fuel : Nat) (n : STree) : Option String :=
  match fuel with
  | 0 => none
  | fuel + 1 =>
    if n.data.type == "identifier" then
      if !n.data.text.isEmpty then some n.data.text else none
    else n.namedChildren.findSome? (fun c => firstIdentifierTextGo fuel c)

/-- Body-token sampling of `getNameAndLeadingCommentTokens`
(context.ts:2464), capped at 20 identifiers (`seen`). -/
def collectBodyGo (m : TextModel) (fuel : Nat) (n : STree)
    (st : List String × Nat) : List String × Nat :=
  match fuel with
  | 0 => st
  | fuel + 1 =>
    if st.2 ≥ 20 then st
    else
      let st1 :=
        if n.data.type == "identifier" then
          if !n.data.text.isEmpty then (st.1 ++ [n.data.text], st.2 + 1) else st
        else if n.data.type == "string" || n.data.type == "template_string" then
          let raw := m.getValueInRange
            ⟨n.data.startPos.row + 1, n.data.startPos.column + 1,
              n.data.endPos.row + 1, n.data.endPos.column + 1⟩
          (st.1 ++ splitCamelSnake (stripOuterQuotes raw), st.2)
        else st
      n.namedChildren.foldl
        (fun acc c => if acc.2 < 20 then collectBodyGo m fuel c acc else acc) st1

/-- Source `getNameAndLeadingCommentTokens` (context.ts:2429). -/
def getNameAndLeadingCommentTokens (STOP : List String) (root : STree)
    (m : TextModel) (r : NodeRef) (fuel : Nat) : List String :=
  let n := nodeAtD root r
  let names : List String :=
    if n.data.type == "function_declaration" then
      match n.childForFieldName "name" with
      | some id => if id.data.text.isEmpty then [] else [id.data.text]
      | none => []
    else if n.data.type == "lexical_declaration" ||
        n.data.type == "variable_declaration" then
      match firstIdentifierTextGo fuel n with
      | some t => [t]
      | none => []
    else []
  let cmt := leadingCommentTextAt m (n.data.startPos.row + 1)
  let bodyTokens := (collectBodyGo m fuel n ([], 0)).1
  cutTokenize STOP (List.intercalate [' '] (names.map String.toList)) ++
    cutTokenize STOP cmt ++
    cutTokenize STOP (List.intercalate [' '] (bodyTokens.map String.toList))

/-- Source `tokensForTopBlock` (context.ts:2610). -/
def tokensForTopBlock (STOP : List String) (root : STree) (m : TextModel)
    (b : BlockRange) (fuel : Nat) : List String :=
  let base := getNameAndLeadingCommentTokens STOP root m b.ref fuel
  let titleTokens : List String :=
    if b.kind == "pm_test" then
      match (nodeAtD root b.ref).childForFieldName "arguments" with
      | some args =>
        match args.namedChildren.headD default with
        | a0 =>
          if a0.data.type == "string" || a0.data.type == "template_string" then
            cutTokenize STOP (stripOuterQuotes a0.data.text.toList)
          else []
      | none => []
    else []
  dedupPreserve (base ++ titleTokens)

def TextModel.textForRange (m : TextModel) (a b : Nat) : Chars :=
  m.getValueInRange
    ⟨(m.getPositionAt (a : Int)).lineNumber, 1,
      (m.getPositionAt (b : Int)).lineNumber, (m.lineEndColumnAtOffset b : Int)⟩

/-- Function types recognized by `tokensForCurrentEdit`
(context.ts:2657; a shorter list than `isFunctionLike`). -/
def isFnForEditType (ty : String) : Bool :=
  ty == "function_declaration" || ty == "function_expression" ||
  ty == "arrow_function" || ty == "method_definition" || ty == "function"

/-- Source `tokensForCurrentEdit` (context.ts:2644). -/
def tokensForCurrentEdit (STOP : List String) (root : STree) (m : TextModel)
    (cursor : Position) (fuel : Nat) : List String × Rng :=
  let nodeAt := descendantForPosition fuel root
    ⟨cursor.lineNumber - 1, cursor.column - 1⟩
  match (selfAndAncestors nodeAt).find? (fun a => isFnForEditType (typeAt root a)) with
  | some fn =>
    let r := expandNodeToFullLinesWithLeadingComments root m fn
    let cmt := leadingCommentTextAt m ((nodeAtD root fn).data.startPos.row + 1)
    let body := m.textForRange r.startOffset r.endOffset
    (cutTokenize STOP (cmt ++ [' ', '\n', ' '] ++ body), r)
  | none =>
    let lineText := m.getLineText cursor.lineNumber
    let cmt := leadingCommentTextAt m cursor.lineNumber
    let startOffset := m.getOffsetAt ⟨cursor.lineNumber, 1⟩
    let endOffset := m.getOffsetAt
      ⟨cursor.lineNumber, (m.lineEndColumn cursor.lineNumber : Int)⟩
    (cutTokenize STOP (cmt ++ [' ', '\n', ' '] ++ lineText), ⟨startOffset, endOffset⟩)

/-- Source `rankSimilarTopBlocks` (context.ts:2697): all scored blocks,
higher similarity first, ties by distance to the cursor. -/
def rankSimilarTopBlocks (STOP : List String) (root : STree) (m : TextModel)
    (cursor : Position) (fuel : Nat) : List (BlockRange × Fr) :=
  let all := collectTopLevelBlocks root m fuel
  let q := tokensForCurrentEdit STOP root m cursor fuel
  let qSet := dedupPreserve q.1
  let scored := (all.filter (fun b =>
      decide (b.endOffset ≤ q.2.startOffset) || decide (b.startOffset ≥ q.2.endOffset))).map
    (fun b => (b, jaccard qSet (dedupPreserve (tokensForTopBlock STOP root m b fuel))))
  let distOf : BlockRange → Nat := fun b =>
    ((m.getPositionAt (b.startOffset : Int)).lineNumber - cursor.lineNumber).natAbs
  jsSort
    (fun a b =>
      if Fr.beq a.2 b.2 then decide (distOf a.1 ≤ distOf b.1) else Fr.blt b.2 a.2)
    scored

/-! ### Scoring, budget packing, dependency closure (context.ts:2179-2333, 1945-1973) -/

def W_LEX : Fr := frMk 3 10

def W_REF : Fr := frMk 35 100

def W_KIND : Fr := frMk 2 10

def W_COMP : Fr := frMk (-5) 100

def W_TITLE : Fr := frMk 2 10

structure Signals where
  lexical : Fr
  reference : Fr
  kind : Fr
  complexity : Fr

structure RankedBlock where
  startOffset : Nat
  endOffset : Nat
  ref : NodeRef
  kind : String
  sizeChars : Nat
  signals : Signals
  score : Fr

def RankedBlock.rng (b : RankedBlock) : Rng := ⟨b.startOffset, b.endOffset⟩

def TextModel.lineNumberAtOffset (m : TextModel) (off : Nat) : Int :=
  (m.getPositionAt (off : Int)).lineNumber

/-- Reference-match count of a candidate (context.ts:2210-2213): how
many of the block's defined names are read or called around the
cursor. -/
def blockMatchCount (reads calls defs : List String) : Nat :=
  (defs.filter (fun d => reads.contains d || calls.contains d)).length

/-- Name-candidate pool of a block for title matching
(context.ts:2230-2252): its function name, its test-title tokens or its
defined names, plus up to five of its free identifiers. -/
def blockNameCandidates (STOP : List String) (root : STree) (fuel : Nat)
    (c : BlockRange) : List String :=
  let n := nodeAtD root c.ref
  (if n.data.type == "function_declaration" then
    match n.childForFieldName "name" with
    | some id => if id.data.text.isEmpty then [] else [id.data.text]
    | none => []
  else if c.kind == "pm_test" then
    match getTestTitleFromNode n with
    | some t => cutTokenize STOP t
    | none => []
  else collectDefsForBlock fuel n) ++
    (freeIdentifiersOf fuel root c.ref).take 5

/-- Title-token overlap count (context.ts:2253-2257): title tokens that
occur inside a lowercased name candidate. -/
def blockTitleOverlap (titleTokens nameCandidates : List String) : Nat :=
  let names := nameCandidates.map (fun s => (toLowerChars s.toList).asString)
  (titleTokens.filter (fun t => names.any (fun nm => containsSub nm.toList t.toList))).length

/-- Per-candidate enrichment inside `scoreCandidates`
(context.ts:2194-2275).  `reads`/`calls` come from Tier A, `expNeg m`
stands for `Math.exp(-m)`. -/
def enrichCandidate (STOP : List String) (expNeg : Nat → Fr) (root : STree)
    (m : TextModel) (reads calls : List String) (cursor : Position)
    (tierBudgetChars : Nat) (titleTokens : List String) (fuel : Nat)
    (c : BlockRange) : RankedBlock :=
  let size := c.endOffset - c.startOffset
  let startLine := m.lineNumberAtOffset c.startOffset
  let dist := (startLine - cursor.lineNumber).natAbs
  let sLex := clamp01 (Fr.sub frOne (Fr.div (Fr.ofNat dist) (Fr.ofNat 200)))
  let n := nodeAtD root c.ref
  let defs := collectDefsForBlock fuel n
  let matchCount := blockMatchCount reads calls defs
  let sRef := clamp01 (Fr.sub frOne (expNeg matchCount))
  let sKind :=
    if c.kind == "function_declaration" then frOne
    else if c.kind == "lexical_declaration" then frMk 9 10
    else if c.kind == "variable_declaration" then frMk 8 10
    else if c.kind == "pm_test" then frMk 7 10
    else frMk 6 10
  let titleOverlap := blockTitleOverlap titleTokens (blockNameCandidates STOP root fuel c)
  let sTitle := clamp01 (Fr.div (Fr.ofNat titleOverlap) (Fr.ofNat (max 1 titleTokens.length)))
  let sComp := clamp01 (Fr.div (Fr.ofNat size) (Fr.ofNat (max 1 tierBudgetChars)))
  let score :=
    Fr.add (Fr.add (Fr.add (Fr.add (Fr.mul W_LEX sLex) (Fr.mul W_REF sRef))
      (Fr.mul W_KIND sKind)) (Fr.mul W_COMP sComp)) (Fr.mul W_TITLE sTitle)
  { startOffset := c.startOffset, endOffset := c.endOffset, ref := c.ref,
    kind := c.kind, sizeChars := size,
    signals := ⟨sLex, sRef, sKind, sComp⟩, score := score }

/-- Comparator of `scoreCandidates` (context.ts:2278): higher score
first, ties by smaller size. -/
def rankedLe (a b : RankedBlock) : Bool :=
  if Fr.beq a.score b.score then decide (a.sizeChars ≤ b.sizeChars)
  else Fr.blt b.score a.score

/-- Source `scoreCandidates` (context.ts:2179). -/
def scoreCandidates (STOP : List String) (expNeg : Nat → Fr) (root : STree)
    (m : TextModel) (candidates : List BlockRange) (tierA : Rng)
    (cursor : Position) (tierBudgetChars : Nat) (titleTokens : List String)
    (fuel : Nat) : List RankedBlock :=
  let rc := collectIdentifiersInRange root m tierA.startOffset tierA.endOffset fuel
  jsSort rankedLe
    (candidates.map
      (enrichCandidate STOP expNeg root m rc.1 rc.2 cursor tierBudgetChars titleTokens fuel))

def selectGo (size : α → Nat) (maxChars : Nat) : List α → Nat → List α
  | [], _ => []
  | it :: rest, used =>
    let sz := size it
    if sz = 0 then selectGo size maxChars rest used
    else if used + sz > maxChars then selectGo size maxChars rest used
    else it :: selectGo size maxChars rest (used + sz)

/-- Source `selectWithinBudget` (context.ts:2282); `sz <= 0` in JS
coincides with `sz = 0` under `Nat` subtraction. -/
def selectWithinBudget (size : α → Nat) (items : List α) (maxChars : Nat) :
    List α :=
  selectGo size maxChars items 0

/-- Source `renderTestSkeleton` (context.ts:2305). -/
def renderTestSkeleton (n : STree) : Chars :=
  let lit : Chars :=
    match n.childForFieldName "arguments" with
    | some args =>
      match args.namedChildren.headD default with
      | a0 =>
        if a0.data.type == "string" || a0.data.type == "template_string" then
          a0.data.text.toList
        else [dquoteC] ++ "test".toList ++ [dquoteC]
    | none => [dquoteC] ++ "test".toList ++ [dquoteC]
  "pm.test(".toList ++ lit ++ ", function () ".toList ++ [braceL] ++
    " ... ".toList ++ [braceR] ++ ");".toList

structure Budgets where
  A : Nat
  B : Nat
  C : Nat
  D : Nat
  total : Nat
  deriving Repr, DecidableEq, Inhabited

def defaultTierPercents : Fr × Fr × Fr × Fr :=
  (frMk 4 10, frMk 3 10, frMk 2 10, frMk 1 10)

/-- Source `deriveBudgets` (context.ts:2323). -/
def deriveBudgets (totalChars : Nat) (perc : Fr × Fr × Fr × Fr) : Budgets :=
  let clampF : Fr → Nat := fun q => (max 0 (Fr.floorI q)).toNat
  let a := clampF (Fr.mul (Fr.ofNat totalChars) perc.1)
  let b := clampF (Fr.mul (Fr.ofNat totalChars) perc.2.1)
  let c := clampF (Fr.mul (Fr.ofNat totalChars) perc.2.2.1)
  let d := clampF (Fr.mul (Fr.ofNat totalChars) perc.2.2.2)
  ⟨a, b, c, d, a + b + c + d⟩

/-- Source `textFromRanges` (context.ts:2343). -/
def textFromRanges (m : TextModel) (ranges : List Rng) : Chars :=
  List.intercalate ['\n']
    (ranges.filterMap (fun r =>
      if r.endOffset ≤ r.startOffset then none
      else some (m.getValueInRange
        ⟨(m.getPositionAt (r.startOffset : Int)).lineNumber, 1,
          (m.getPositionAt (r.endOffset : Int)).lineNumber,
          (m.lineEndColumnAtOffset r.endOffset : Int)⟩)))

/-- Source `overlaps` (context.ts:2731). -/
def overlapsB (a b : Rng) : Bool :=
  !(decide (a.endOffset ≤ b.startOffset) || decide (a.startOffset ≥ b.endOffset))

/-- Source `filterNonOverlapping` (context.ts:2745), on ranges. -/
def filterNonOverlapping (items : List Rng) (taken : List Rng) : List Rng :=
  items.filter (fun it => !(taken.any (fun t => overlapsB it t)))

/-- One dependency-lookup step of `expandWithDependencies`
(context.ts:1957-1973): add the dependency's range when it is new,
non-empty and fits the remaining budget. -/
def depAddStep (globalIndex : List (String × BlockRange))
    (st : List Rng × Nat) (name : String) : List Rng × Nat :=
  match indexLookup globalIndex name with
  | none => st
  | some dep =>
    let r : Rng := ⟨dep.startOffset, dep.endOffset⟩
    if st.1.contains r then st
    else
      let sz := dep.endOffset - dep.startOffset
      if sz = 0 || st.2 < sz then st
      else (st.1 ++ [r], st.2 - sz)

/-- Source `expandWithDependencies` (context.ts:1945).  The `seen` key
set coincides with exact-range membership in `out`. -/
def expandWithDependencies (root : STree) (fuel : Nat)
    (picked : List BlockRange) (globalIndex : List (String × BlockRange))
    (already : List Rng) (budgetLeft : Nat) : List Rng :=
  (picked.foldl
    (fun (st : List Rng × Nat) b =>
      (freeIdentifiersOf fuel root b.ref).foldl (depAddStep globalIndex) st)
    (already, budgetLeft)).1

/-! ### Public query: getGlobalDeclarations (context.ts:1041-1186) -/

structure DeclRangeOut where
  startOffset : Nat
  endOffset : Nat
  name : String
  priority : String
  usageCount : Nat
  deriving Repr, DecidableEq, Inhabited

structure GlobalDeclarationsMeta where
  totalDeclarations : Nat
  currentScopeCount : Nat
  highUsageCount : Nat
  otherCount : Nat
  budgetUsed : Nat
  budgetLimit : Int
  deriving Repr, DecidableEq, Inhabited

structure GlobalDeclarationsResult where
  text : Chars
  declarations : List DeclRangeOut
  meta : GlobalDeclarationsMeta
  deriving Repr, DecidableEq, Inhabited

structure DeclWithPriority where
  declaration : BlockRange
  name : String
  priority : String
  usageCount : Nat
  size : Nat
  deriving Repr, DecidableEq, Inhabited

/-- Comparator `usageCount desc, then startOffset asc`
(context.ts:1116-1124). -/
def declUsageLe (a b : DeclWithPriority) : Bool :=
  if a.usageCount == b.usageCount then
    decide (a.declaration.startOffset ≤ b.declaration.startOffset)
  else decide (b.usageCount ≤ a.usageCount)

/-- Greedy budget selection of `getGlobalDeclarations`
(context.ts:1132-1140): keep a declaration when it still fits; no
early exit. -/
def gdSelectGo (maxBudget : Int) : List DeclWithPriority → Nat →
    List DeclWithPriority × Nat
  | [], used => ([], used)
  | d :: rest, used =>
    if decide ((used : Int) + (d.size : Int) ≤ maxBudget) then
      let r := gdSelectGo maxBudget rest (used + d.size)
      (d :: r.1, r.2)
    else gdSelectGo maxBudget rest used

/-- Pure part of `getGlobalDeclarations` (context.ts:1041), applied to
a state whose tree is already current (`root` is that tree). -/
def getGlobalDeclarationsPure (root : STree) (m : TextModel)
    (cursor : Position) (maxBudget : Int) (includeComments : Bool)
    (fuel : Nat) : GlobalDeclarationsResult :=
  let allDeclarations := collectGlobalBlockCandidates root m
  if allDeclarations.isEmpty then
    ⟨[], [], ⟨0, 0, 0, 0, 0, maxBudget⟩⟩
  else
    let usage := analyzeGlobalUsageList fuel root
    let currentScopeIdentifiers := getIdentifiersUsedInCurrentScope root cursor fuel
    let categorized : List DeclWithPriority := allDeclarations.map (fun decl =>
      let names := extractDeclarationNames fuel (nodeAtD root decl.ref)
      let primaryName := names.headD "unknown"
      let usageCount := usage.count primaryName
      let priority :=
        if currentScopeIdentifiers.contains primaryName then "current-scope"
        else if 2 ≤ usageCount then "high-usage"
        else "other"
      ⟨decl, primaryName, priority, usageCount, decl.endOffset - decl.startOffset⟩)
    let sortedDeclarations :=
      jsSort declUsageLe (categorized.filter (fun d => d.priority == "current-scope")) ++
      jsSort declUsageLe (categorized.filter (fun d => d.priority == "high-usage")) ++
      jsSort (fun a b => decide (a.declaration.startOffset ≤ b.declaration.startOffset))
        (categorized.filter (fun d => d.priority == "other"))
    let sel := gdSelectGo maxBudget sortedDeclarations 0
    let selected := jsSort
      (fun a b => decide (a.declaration.startOffset ≤ b.declaration.startOffset)) sel.1
    let ranges : List DeclRangeOut := selected.map (fun d =>
      let r :=
        if includeComments then
          expandNodeToFullLinesWithLeadingComments root m d.declaration.ref
        else expandNodeToFullLines m (nodeAtD root d.declaration.ref)
      ⟨r.startOffset, r.endOffset, d.name, d.priority, d.usageCount⟩)
    let text := textFromRanges m (ranges.map (fun r => ⟨r.startOffset, r.endOffset⟩))
    ⟨text, ranges,
      ⟨allDeclarations.length,
        (selected.filter (fun d => d.priority == "current-scope")).length,
        (selected.filter (fun d => d.priority == "high-usage")).length,
        (selected.filter (fun d => d.priority == "other")).length,
        sel.2, maxBudget⟩⟩

/-- Source `getGlobalDeclarations` (context.ts:1041): ensure, then the
pure computation; with no tree the collectors return nothing and the
empty result is produced. -/
def getGlobalDeclarationsE (P : ParserFns) (now : Nat) (s : ExtractorState)
    (cursor : Position) (opts : ContextOptions) (fuel : Nat) :
    Except Unit (GlobalDeclarationsResult × ExtractorState) := do
  let s' ← ensureIncrementalParseUpToDate P now s
  let maxBudget := opts.maxCharsBudget.getD 2000
  let includeComments := opts.includeLeadingComments.getD true
  match s'.tree with
  | none => .ok (⟨[], [], ⟨0, 0, 0, 0, 0, maxBudget⟩⟩, s')
  | some root =>
    .ok (getGlobalDeclarationsPure root s'.model cursor maxBudget includeComments fuel, s')

/-! ### Public query: getRankedContextSections (context.ts:2807-3012) -/

structure TierOffsets where
  A : List Rng
  B : List Rng
  C : List Rng
  D : List Rng
  deriving Repr, DecidableEq, Inhabited

structure PickedCounts where
  A : Nat
  B : Nat
  C : Nat
  D : Nat
  skeletons : Nat
  deriving Repr, DecidableEq, Inhabited

structure RankedMeta where
  strategy : Strategy
  budgets : Budgets
  offsets : TierOffsets
  pickedCounts : PickedCounts
  titleTokens : List String
  deriving Repr, DecidableEq, Inhabited

structure ExtractRankedContextSections where
  linesAroundCursor : Chars
  declarations : Chars
  relevantLines : Chars
  existingTests : Chars
  meta : RankedMeta
  deriving Repr, DecidableEq, Inhabited

/-- Tier B candidates (context.ts:2858-2864): global declaration blocks
of kind `declaration`, not overlapping Tier A. -/
def rpDeclOnly (root : STree) (m : TextModel) (baseRange : Rng) : List BlockRange :=
  (collectGlobalBlockCandidates root m).filter (fun b =>
    b.kind == "declaration" &&
      (decide (b.endOffset ≤ baseRange.startOffset) ||
       decide (b.startOffset ≥ baseRange.endOffset)))

/-- Tier B ranked candidates (context.ts:2866-2872). -/
def rpRankedB (STOP : List String) (expNeg : Nat → Fr) (root : STree)
    (m : TextModel) (baseRange : Rng) (cursor : Position) (budgetB : Nat)
    (titleTokens : List String) (fuel : Nat) : List RankedBlock :=
  scoreCandidates STOP expNeg root m (rpDeclOnly root m baseRange) baseRange cursor
    budgetB titleTokens fuel

/-- Tier B picks (context.ts:2876-2879). -/
def rpPickedB (STOP : List String) (expNeg : Nat → Fr) (root : STree)
    (m : TextModel) (baseRange : Rng) (cursor : Position) (budgetB : Nat)
    (titleTokens : List String) (fuel : Nat) : List RankedBlock :=
  selectWithinBudget (fun b => b.endOffset - b.startOffset)
    ((rpRankedB STOP expNeg root m baseRange cursor budgetB titleTokens fuel).filter
      (fun it => !([baseRange].any (fun t => overlapsB it.rng t))))
    budgetB

/-- Tier C candidate pool (context.ts:2890-2908): similarity-ranked
helper functions not overlapping Tier A, the Tier B declaration pool or
any test block. -/
def rpSimilarAll (STOP : List String) (root : STree) (m : TextModel)
    (baseRange : Rng) (cursor : Position) (fuel : Nat) : List BlockRange :=
  let declOnly := rpDeclOnly root m baseRange
  let testsAll := collectOtherTestBlocks root m none
  let excludeRanges := [baseRange] ++ declOnly.map BlockRange.rng ++ testsAll.map BlockRange.rng
  ((rankSimilarTopBlocks STOP root m cursor fuel).filter (fun s =>
      (s.1.kind == "function_declaration" || s.1.kind == "arrow_function_decl" ||
        s.1.kind == "function_expression_decl") &&
      !(excludeRanges.any (fun ex => overlapsB s.1.rng ex)))).map (fun s => s.1)

/-- Tier C picks (context.ts:2910-2914): budget, then top `TOP_K = 3`. -/
def rpPickedC (STOP : List String) (root : STree) (m : TextModel)
    (baseRange : Rng) (cursor : Position) (budgetC : Nat) (fuel : Nat) :
    List BlockRange :=
  (selectWithinBudget (fun b => b.endOffset - b.startOffset)
    (rpSimilarAll STOP root m baseRange cursor fuel) budgetC).take 3

/-- One-hop dependency expansion of the pipeline (context.ts:2918-2951),
already filtered against Tier A and the B/C picks. -/
def rpDepExpanded (STOP : List String) (expNeg : Nat → Fr) (root : STree)
    (m : TextModel) (baseRange : Rng) (cursor : Position) (budgets : Budgets)
    (titleTokens : List String) (fuel : Nat) : List Rng :=
  let pickedB := rpPickedB STOP expNeg root m baseRange cursor budgets.B titleTokens fuel
  let pickedC := rpPickedC STOP root m baseRange cursor budgets.C fuel
  let rangesBC := pickedB.map RankedBlock.rng ++ pickedC.map BlockRange.rng
  let usedBC := (rangesBC.map (fun r => r.endOffset - r.startOffset)).sum
  let bcBudgetLeft := budgets.B + budgets.C - usedBC
  let globalIndex := buildGlobalIndex root m fuel
  let pickedBlocks :=
    pickedB.map (fun b => (⟨b.startOffset, b.endOffset, b.ref, b.kind⟩ : BlockRange)) ++ pickedC
  ((expandWithDependencies root fuel pickedBlocks globalIndex rangesBC bcBudgetLeft).filter
      (fun r => !(overlapsB r baseRange))).filter
    (fun r => !(rangesBC.any (fun t => overlapsB r t)))

/-- Tier B emitted ranges (context.ts:2964-2974): picks plus the
dependency additions that are declaration blocks. -/
def rpDeclRanges (STOP : List String) (expNeg : Nat → Fr) (root : STree)
    (m : TextModel) (baseRange : Rng) (cursor : Position) (budgets : Budgets)
    (titleTokens : List String) (fuel : Nat) : List Rng :=
  let pickedB := rpPickedB STOP expNeg root m baseRange cursor budgets.B titleTokens fuel
  let declOnly := rpDeclOnly root m baseRange
  pickedB.map RankedBlock.rng ++
    (rpDepExpanded STOP expNeg root m baseRange cursor budgets titleTokens fuel).filter
      (fun r => declOnly.any (fun g =>
        decide (g.startOffset = r.startOffset) && decide (g.endOffset = r.endOffset)))

/-- Assembly of the ranked-sections result from a current tree
(context.ts:2811-3011). -/
def rankedPipeline (STOP : List String) (expNeg : Nat → Fr) (root : STree)
    (m : TextModel) (cursor : Position) (tierA : ExtractContextResult)
    (budgets : Budgets) (fuel : Nat) : ExtractRankedContextSections :=
  let baseRange : Rng := ⟨tierA.startOffset, tierA.endOffset⟩
  let nodeAtCursor := descendantForPosition fuel root
    ⟨cursor.lineNumber - 1, cursor.column - 1⟩
  let title : Option Chars :=
    match nearestFunctionFrom root nodeAtCursor with
    | none => none
    | some fn => getTestTitleFromNode (nodeAtD root (wrapFunctionIfArgument root fn))
  let titleTokens := jsTokenize (title.getD [])
  let pickedC := rpPickedC STOP root m baseRange cursor budgets.C fuel
  let testsExA := collectOtherTestBlocks root m (some baseRange)
  let existingTests :=
    if testsExA.isEmpty then []
    else List.intercalate ['\n']
      (testsExA.map (fun t => renderTestSkeleton (nodeAtD root t.ref)))
  let declRanges := rpDeclRanges STOP expNeg root m baseRange cursor budgets titleTokens fuel
  let relevantRanges := pickedC.map BlockRange.rng
  { linesAroundCursor := textFromRanges m [baseRange]
    declarations := textFromRanges m declRanges
    relevantLines := textFromRanges m relevantRanges
    existingTests := existingTests
    meta :=
      { strategy := tierA.strategy
        budgets := budgets
        offsets := ⟨[baseRange], declRanges, relevantRanges, []⟩
        pickedCounts := ⟨1, declRanges.length, relevantRanges.length,
          testsExA.length, testsExA.length⟩
        titleTokens := titleTokens } }

/-- Source `getRankedContextSections` (context.ts:2807): budgets, Tier A
via `getContextAroundCursor`, then the pipeline.  The unguarded
`this.tree!` dereference (context.ts:2842) throws on a null tree, which
is `.error ()` here. -/
def getRankedContextSectionsE (P : ParserFns) (now : Nat)
    (STOP : List String) (expNeg : Nat → Fr) (s : ExtractorState)
    (cursor : Position) (opts : ContextOptions) (fuel : Nat) :
    Except Unit (ExtractRankedContextSections × ExtractorState) := do
  let totalBudget : Nat := (max 1000 (opts.maxCharsBudget.getD 8000)).toNat
  let percents := opts.tierPercents.getD defaultTierPercents
  let budgets := deriveBudgets totalBudget percents
  let optsA := { opts with
    rawPrefixLines := some (opts.rawPrefixLines.getD 5)
    rawSuffixLines := some (opts.rawSuffixLines.getD 5)
    maxCharsBudget := none }
  let ts ← getContextAroundCursorE P now s cursor optsA fuel
  match ts.2.tree with
  | none => .error ()
  | some root =>
    .ok (rankedPipeline STOP expNeg root ts.2.model cursor ts.1 budgets fuel, ts.2)

/-! ### Concrete instances

Concrete buffers and their tree-sitter trees, used by the scenario
claims, the counterexamples and the witnesses.  Node texts are
populated wherever the embedding reads them (identifier / string /
title nodes); inner nodes that are never read textually carry `""`. -/

/-- A rational stand-in for `Math.exp (-m)`: correct at `m = 0` (the
only argument occurring in the concrete runs below, which are
insensitive to its other values), positive and decreasing like the
real function. -/
def expNegStub (mm : Nat) : Fr := frMk 1 (3 ^ mm)

/-- A parser that always returns the fixed tree `t`. -/
def constParser (t : STree) : ParserFns := ⟨fun _ _ => some t, fun tr _ => tr⟩

/-- A parser whose (re)parse throws. -/
def failParser : ParserFns := ⟨fun _ _ => none, fun tr _ => tr⟩

def mkAnon (ty : String) (r c0 c1 : Int) : STree :=
  .node ⟨ty, ⟨r, c0⟩, ⟨r, c1⟩, false, none, false, false, ty⟩ []

def mkTok (ty : String) (r c0 c1 : Int) (f : Option String) (txt : String) : STree :=
  .node ⟨ty, ⟨r, c0⟩, ⟨r, c1⟩, true, f, false, false, txt⟩ []

/-! Empty buffer (scenario of C3). -/

def emptyModel : TextModel := ⟨[""]⟩

def emptyTree : STree :=
  .node ⟨"program", ⟨0, 0⟩, ⟨0, 0⟩, true, none, false, false, ""⟩ []

def stateEmpty : ExtractorState := ⟨emptyModel, some emptyTree, false, [], 0⟩

def c3run : Except Unit (ExtractContextResult × ExtractorState) :=
  getContextAroundCursorE (constParser emptyTree) 0 stateEmpty ⟨1, 1⟩ {} 20

/-! Two `const` declarations sharing line 1 plus a block of comment
lines (counterexamples of C1 and C2). -/

/-- A `const <nm> = <vl>;` lexical declaration starting at column
`col` of row 0, with a one-character-name variant when `nm` is short. -/
def declNodeAt (col : Int) (nm vl : String) : STree :=
  .node ⟨"lexical_declaration", ⟨0, col⟩, ⟨0, col + 12⟩, true, none, false, false, ""⟩
    [mkAnon "const" 0 col (col + 5),
      .node ⟨"variable_declarator", ⟨0, col + 6⟩, ⟨0, col + 11⟩, true, none, false, false, ""⟩
        [mkTok "identifier" 0 (col + 6) (col + 7) (some "name") nm,
          mkAnon "=" 0 (col + 8) (col + 9),
          mkTok "number" 0 (col + 10) (col + 11) (some "value") vl],
      mkAnon ";" 0 (col + 11) (col + 12)]

def cLineStr : String := "// " ++ (List.replicate 57 'a').asString

def commentNode (r : Int) : STree :=
  .node ⟨"comment", ⟨r, 0⟩, ⟨r, 60⟩, true, none, false, false, cLineStr⟩ []

def cexModel : TextModel :=
  ⟨["const a = 1; const b = 2;"] ++ List.replicate 12 cLineStr⟩

def cexTree : STree :=
  .node ⟨"program", ⟨0, 0⟩, ⟨12, 60⟩, true, none, false, false, ""⟩
    ([declNodeAt 0 "a" "1", declNodeAt 13 "b" "2"] ++
      (List.range 12).map (fun k => commentNode ((k : Int) + 1)))

def cexState : ExtractorState := ⟨cexModel, some cexTree, false, [], 0⟩

def cexCursor : Position := ⟨8, 1⟩

/-- Pipeline run with default options (counterexample input of C1). -/
def c1run : Except Unit (ExtractRankedContextSections × ExtractorState) :=
  getRankedContextSectionsE (constParser cexTree) 0 [] expNegStub cexState cexCursor {} 30

/-- Pipeline run with a 1000-character budget (counterexample input of
C2: Tier A alone is 670 characters against a 400-character Tier A
budget). -/
def c2run : Except Unit (ExtractRankedContextSections × ExtractorState) :=
  getRankedContextSectionsE (constParser cexTree) 0 [] expNegStub cexState cexCursor
    { maxCharsBudget := some 1000 } 30

/-! Ten global `const` declarations plus a `pm.test` call referencing
three of them (scenario of C9). -/

/-- Declaration line `const <nm> = <vl>;` on row `r` (two-character
names: identifier at columns 6-8). -/
def declLine (r : Int) (nm vl : String) : STree :=
  .node ⟨"lexical_declaration", ⟨r, 0⟩, ⟨r, 13⟩, true, none, false, false, ""⟩
    [mkAnon "const" r 0 5,
      .node ⟨"variable_declarator", ⟨r, 6⟩, ⟨r, 12⟩, true, none, false, false, ""⟩
        [mkTok "identifier" r 6 8 (some "name") nm,
          mkAnon "=" r 9 10,
          mkTok "number" r 11 12 (some "value") vl],
      mkAnon ";" r 12 13]

/-- Inner statement `  pm.expect(<nm>);` on row `r`. -/
def expectStmt (r : Int) (nm : String) : STree :=
  .node ⟨"expression_statement", ⟨r, 2⟩, ⟨r, 16⟩, true, none, false, false, ""⟩
    [.node ⟨"call_expression", ⟨r, 2⟩, ⟨r, 15⟩, true, none, false, false, ""⟩
      [.node ⟨"member_expression", ⟨r, 2⟩, ⟨r, 11⟩, true, none, false, false, ""⟩
        [mkTok "identifier" r 2 4 (some "object") "pm",
          mkAnon "." r 4 5,
          mkTok "property_identifier" r 5 11 (some "property") "expect"],
        .node ⟨"arguments", ⟨r, 11⟩, ⟨r, 15⟩, true, some "arguments", false, false, ""⟩
          [mkAnon "(" r 11 12,
            mkTok "identifier" r 12 14 none nm,
            mkAnon ")" r 14 15]],
      mkAnon ";" r 15 16]

def gdTestStmt : STree :=
  .node ⟨"expression_statement", ⟨10, 0⟩, ⟨14, 3⟩, true, none, false, false, ""⟩
    [.node ⟨"call_expression", ⟨10, 0⟩, ⟨14, 2⟩, true, none, false, false, ""⟩
      [.node ⟨"member_expression", ⟨10, 0⟩, ⟨10, 7⟩, true, none, false, false, ""⟩
        [mkTok "identifier" 10 0 2 (some "object") "pm",
          mkAnon "." 10 2 3,
          mkTok "property_identifier" 10 3 7 (some "property") "test"],
        .node ⟨"arguments", ⟨10, 7⟩, ⟨14, 1⟩, true, some "arguments", false, false, ""⟩
          [mkAnon "(" 10 7 8,
            mkTok "string" 10 8 11 none ([dquoteC] ++ "t".toList ++ [dquoteC]).asString,
            mkAnon "," 10 11 12,
            .node ⟨"function_expression", ⟨10, 13⟩, ⟨14, 1⟩, true, none, false, false, ""⟩
              [mkAnon "function" 10 13 21,
                .node ⟨"formal_parameters", ⟨10, 22⟩, ⟨10, 24⟩, true, some "parameters", false, false, ""⟩
                  [mkAnon "(" 10 22 23, mkAnon ")" 10 23 24],
                .node ⟨"statement_block", ⟨10, 25⟩, ⟨14, 1⟩, true, some "body", false, false, ""⟩
                  [.node ⟨"\x7b", ⟨10, 25⟩, ⟨10, 26⟩, false, none, false, false, ""⟩ [],
                    expectStmt 11 "c2",
                    expectStmt 12 "c5",
                    expectStmt 13 "c9",
                    .node ⟨"\x7d", ⟨14, 0⟩, ⟨14, 1⟩, false, none, false, false, ""⟩ []]],
            mkAnon ")" 14 0 1]],
      mkAnon ";" 14 2 3]

def gdDeclNames : List String :=
  ["c1", "c2", "c3", "c4", "c5", "c6", "c7", "c8", "c9", "cc"]

def gdModel : TextModel :=
  ⟨(gdDeclNames.map (fun nm => "const " ++ nm ++ " = 1;")) ++
    ["pm.test(" ++ [dquoteC, 't', dquoteC].asString ++ ", function () " ++ [braceL].asString,
      "  pm.expect(c2);", "  pm.expect(c5);", "  pm.expect(c9);",
      [braceR].asString ++ ");"]⟩

def gdTree : STree :=
  .node ⟨"program", ⟨0, 0⟩, ⟨14, 3⟩, true, none, false, false, ""⟩
    (((List.range 10).map (fun (k : Nat) =>
        declLine ((k : Nat) : Int) (gdDeclNames.getD k "") "1")) ++ [gdTestStmt])

def gdState : ExtractorState := ⟨gdModel, some gdTree, false, [], 0⟩

/-- The C9 scenario run: cursor inside the test call, budget 41 (fits
exactly the three referenced declarations of size 13 each). -/
def c9run : Except Unit (GlobalDeclarationsResult × ExtractorState) :=
  getGlobalDeclarationsE (constParser gdTree) 0 gdState ⟨12, 14⟩
    { maxCharsBudget := some 41 } 30

/-! A reachable dirty state whose reparse fails (counterexample trace
of C4). -/

def c4Model0 : TextModel := ⟨["const x = 1;"]⟩

def c4Tree0 : STree :=
  .node ⟨"program", ⟨0, 0⟩, ⟨0, 12⟩, true, none, false, false, ""⟩
    [.node ⟨"lexical_declaration", ⟨0, 0⟩, ⟨0, 12⟩, true, none, false, false, ""⟩
      [mkAnon "const" 0 0 5,
        .node ⟨"variable_declarator", ⟨0, 6⟩, ⟨0, 11⟩, true, none, false, false, ""⟩
          [mkTok "identifier" 0 6 7 (some "name") "x",
            mkAnon "=" 0 8 9,
            mkTok "number" 0 10 11 (some "value") "1"],
        mkAnon ";" 0 11 12]]

def c4Model1 : TextModel := ⟨["const x = 1;("]⟩

def c4Change : ModelContentChange :=
  ⟨⟨1, 13, 1, 13⟩, 12, 0, ['(']⟩

def c4State0 : ExtractorState := ⟨c4Model0, some c4Tree0, false, [], 0⟩

def c4State1 : ExtractorState := onModelContentChanged c4State0 c4Model1 [c4Change]

def c4run : Except Unit (ExtractContextResult × ExtractorState) :=
  getContextAroundCursorE failParser 1 c4State1 ⟨1, 13⟩ {} 20

/-! ### Spec-side definitions and result projections for the claims -/

/-- Modelled from the spec (§4.6 Budget Packer), for comparison with
the source's `selectWithinBudget`: iterate in order, skip any candidate
whose size would exceed the remaining budget, otherwise accept and
decrement the remaining budget; never truncate. -/
def specSelectGo (size : α → Nat) : List α → Nat → List α
  | [], _ => []
  | it :: rest, remaining =>
    if size it > remaining then specSelectGo size rest remaining
    else it :: specSelectGo size rest (remaining - size it)

/-- Modelled from the spec (§4.6): the whole packer, starting from the
full budget. -/
def specSelect (size : α → Nat) (items : List α) (maxChars : Nat) : List α :=
  specSelectGo size items maxChars

def c1res : ExtractRankedContextSections :=
  match c1run with
  | .ok p => p.1
  | .error _ => default

def c2res : ExtractRankedContextSections :=
  match c2run with
  | .ok p => p.1
  | .error _ => default

def c3res : ExtractContextResult :=
  match c3run with
  | .ok p => p.1
  | .error _ => default

def c9res : GlobalDeclarationsResult :=
  match c9run with
  | .ok p => p.1
  | .error _ => default

/-- Sum of the sizes of a list of ranges. -/
def sumSizes (l : List Rng) : Nat :=
  (l.map (fun r => r.endOffset - r.startOffset)).sum

/-- State invariant of the parse manager: a clean extractor has no
queued edits (holds for every reachable state). -/
def CleanNoEdits (s : ExtractorState) : Prop :=
  s.dirty = false → s.pendingEdits = []

/-! ### Lemmas about the fraction bridge `Fr.toRat` -/

theorem Fr.denQ_pos (a : Fr) : (0 : ℚ) < (a.den : ℚ) := by
  exact_mod_cast a.den_pos

theorem Fr.denQ_ne (a : Fr) : ((a.den : ℚ)) ≠ 0 := ne_of_gt a.denQ_pos

theorem Fr.toRat_ofNat (n : Nat) : (Fr.ofNat n).toRat = (n : ℚ) := by
  simp [Fr.toRat, Fr.ofNat]

theorem Fr.toRat_ofInt (n : Int) : (Fr.ofInt n).toRat = (n : ℚ) := by
  simp [Fr.toRat, Fr.ofInt]

theorem frZero_toRat : frZero.toRat = 0 := by simp [frZero, Fr.toRat_ofInt]

theorem frOne_toRat : frOne.toRat = 1 := by simp [frOne, Fr.toRat_ofInt]

theorem frMk_toRat (n d : Int) (h : 0 < d) : (frMk n d).toRat = (n : ℚ) / d := by
  simp [frMk, h, Fr.toRat]

theorem Fr.toRat_add (a b : Fr) : (Fr.add a b).toRat = a.toRat + b.toRat := by
  have ha := a.denQ_ne
  have hb := b.denQ_ne
  simp only [Fr.toRat, Fr.add]
  push_cast
  field_simp
  try ring

theorem Fr.toRat_sub (a b : Fr) : (Fr.sub a b).toRat = a.toRat - b.toRat := by
  have ha := a.denQ_ne
  have hb := b.denQ_ne
  simp only [Fr.toRat, Fr.sub]
  push_cast
  field_simp
  try ring

theorem Fr.toRat_mul (a b : Fr) : (Fr.mul a b).toRat = a.toRat * b.toRat := by
  have ha := a.denQ_ne
  have hb := b.denQ_ne
  simp only [Fr.toRat, Fr.mul]
  push_cast
  field_simp
  try ring

theorem Fr.toRat_div (a b : Fr) (h : 0 < b.num) :
    (Fr.div a b).toRat = a.toRat / b.toRat := by
  have ha := a.denQ_ne
  have hb := b.denQ_ne
  have hbn : ((b.num : ℚ)) ≠ 0 := by exact_mod_cast ne_of_gt h
  simp only [Fr.toRat, Fr.div, dif_pos h]
  push_cast
  field_simp
  try ring

theorem Fr.ble_iff (a b : Fr) : Fr.ble a b = true ↔ a.toRat ≤ b.toRat := by
  simp only [Fr.ble, decide_eq_true_eq, Fr.toRat]
  rw [div_le_div_iff₀ a.denQ_pos b.denQ_pos]
  exact_mod_cast Iff.rfl

theorem Fr.blt_iff (a b : Fr) : Fr.blt a b = true ↔ a.toRat < b.toRat := by
  simp only [Fr.blt, decide_eq_true_eq, Fr.toRat]
  rw [div_lt_div_iff₀ a.denQ_pos b.denQ_pos]
  exact_mod_cast Iff.rfl

theorem Fr.beq_iff (a b : Fr) : Fr.beq a b = true ↔ a.toRat = b.toRat := by
  simp only [Fr.beq, decide_eq_true_eq, Fr.toRat]
  rw [div_eq_div_iff a.denQ_ne b.denQ_ne]
  exact_mod_cast Iff.rfl

theorem Fr.toRat_minF (a b : Fr) : (Fr.minF a b).toRat = min a.toRat b.toRat := by
  unfold Fr.minF
  by_cases h : Fr.ble a b = true
  · rw [if_pos h, min_eq_left ((Fr.ble_iff a b).mp h)]
  · have : ¬ a.toRat ≤ b.toRat := fun hc => h ((Fr.ble_iff a b).mpr hc)
    rw [if_neg h, min_eq_right (le_of_not_le this)]

theorem Fr.toRat_maxF (a b : Fr) : (Fr.maxF a b).toRat = max a.toRat b.toRat := by
  unfold Fr.maxF
  by_cases h : Fr.ble a b = true
  · rw [if_pos h, max_eq_right ((Fr.ble_iff a b).mp h)]
  · have : ¬ a.toRat ≤ b.toRat := fun hc => h ((Fr.ble_iff a b).mpr hc)
    rw [if_neg h, max_eq_left (le_of_not_le this)]

theorem clamp01_toRat (x : Fr) : (clamp01 x).toRat = max 0 (min 1 x.toRat) := by
  simp [clamp01, Fr.toRat_maxF, Fr.toRat_minF, frZero_toRat, frOne_toRat]

theorem Fr.floorI_eq (a : Fr) : a.floorI = ⌊a.toRat⌋ := by
  unfold Fr.floorI Fr.toRat
  rw [Int.fdiv_eq_ediv a.num (le_of_lt a.den_pos)]
  have h2 : a.den = ((a.den.toNat : ℕ) : ℤ) := by
    have := a.den_pos
    omega
  rw [h2]
  push_cast
  exact (Rat.floor_intCast_div_natCast a.num a.den.toNat).symm

/-! ### Lemmas about the stable sort `jsSort` -/

theorem jsOrderedInsert_perm (le : α → α → Bool) (x : α) (l : List α) :
    List.Perm (jsOrderedInsert le x l) (x :: l) := by
  induction l with
  | nil => exact List.Perm.refl _
  | cons y ys ih =>
    simp only [jsOrderedInsert]
    split
    · exact List.Perm.refl _
    · exact (List.Perm.trans (ih.cons y) (List.Perm.swap x y ys)).symm.symm

theorem jsSort_perm (le : α → α → Bool) (l : List α) :
    List.Perm (jsSort le l) l := by
  induction l with
  | nil => exact List.Perm.refl _
  | cons x xs ih =>
    exact List.Perm.trans (jsOrderedInsert_perm le x (jsSort le xs)) (ih.cons x)

theorem mem_jsSort {le : α → α → Bool} {l : List α} {a : α} :
    a ∈ jsSort le l ↔ a ∈ l :=
  (jsSort_perm le l).mem_iff

theorem mem_jsOrderedInsert (le : α → α → Bool) (x a : α) (l : List α) :
    a ∈ jsOrderedInsert le x l ↔ a = x ∨ a ∈ l := by
  rw [(jsOrderedInsert_perm le x l).mem_iff]
  simp

theorem jsOrderedInsert_pairwise (le : α → α → Bool)
    (htot : ∀ a b, le a b = true ∨ le b a = true)
    (htrans : ∀ a b c, le a b = true → le b c = true → le a c = true)
    (x : α) (l : List α) (h : List.Pairwise (fun a b => le a b = true) l) :
    List.Pairwise (fun a b => le a b = true) (jsOrderedInsert le x l) := by
  induction l with
  | nil => simp [jsOrderedInsert]
  | cons y ys ih =>
    simp only [jsOrderedInsert]
    by_cases hxy : le x y = true
    · rw [if_pos hxy]
      refine List.Pairwise.cons ?_ h
      intro z hz
      rcases List.mem_cons.mp hz with rfl | hz'
      · exact hxy
      · exact htrans x y z hxy (List.rel_of_pairwise_cons h hz')
    · rw [if_neg hxy]
      refine List.Pairwise.cons ?_ (ih (List.Pairwise.sublist (List.sublist_cons_self y ys) h))
      intro z hz
      rcases (mem_jsOrderedInsert le x z ys).mp hz with rfl | hz'
      · rcases htot z y with h1 | h1
        · exact absurd h1 hxy
        · exact h1
      · exact List.rel_of_pairwise_cons h hz'

theorem jsSort_pairwise (le : α → α → Bool)
    (htot : ∀ a b, le a b = true ∨ le b a = true)
    (htrans : ∀ a b c, le a b = true → le b c = true → le a c = true)
    (l : List α) : List.Pairwise (fun a b => le a b = true) (jsSort le l) := by
  induction l with
  | nil => exact List.Pairwise.nil
  | cons x xs ih => exact jsOrderedInsert_pairwise le htot htrans x (jsSort le xs) ih

/-! ### Lemmas about the budget packer -/

theorem selectGo_sublist (size : α → Nat) (b : Nat) :
    ∀ (items : List α) (used : Nat), (selectGo size b items used).Sublist items := by
  intro items
  induction items with
  | nil => intro used; simp [selectGo]
  | cons it rest ih =>
    intro used
    simp only [selectGo]
    by_cases h0 : size it = 0
    · rw [if_pos h0]; exact (ih used).cons it
    · rw [if_neg h0]
      by_cases h1 : used + size it > b
      · rw [if_pos h1]; exact (ih used).cons it
      · rw [if_neg h1]; exact (ih _).cons₂ it

theorem selectGo_sum (size : α → Nat) (b : Nat) :
    ∀ (items : List α) (used : Nat), used ≤ b →
      used + ((selectGo size b items used).map size).sum ≤ b := by
  intro items
  induction items with
  | nil => intro used h; simpa [selectGo] using h
  | cons it rest ih =>
    intro used h
    simp only [selectGo]
    by_cases h0 : size it = 0
    · rw [if_pos h0]; exact ih used h
    · rw [if_neg h0]
      by_cases h1 : used + size it > b
      · rw [if_pos h1]; exact ih used h
      · rw [if_neg h1]
        have := ih (used + size it) (by omega)
        simp only [List.map_cons, List.sum_cons]
        omega

theorem selectWithinBudget_sum (size : α → Nat) (items : List α) (b : Nat) :
    ((selectWithinBudget size items b).map size).sum ≤ b := by
  have := selectGo_sum size b items 0 (Nat.zero_le b)
  simpa [selectWithinBudget] using this

theorem selectGo_pos (size : α → Nat) (b : Nat) :
    ∀ (items : List α) (used : Nat) (x : α), x ∈ selectGo size b items used →
      0 < size x := by
  intro items
  induction items with
  | nil => intro used x hx; simp [selectGo] at hx
  | cons it rest ih =>
    intro used x hx
    simp only [selectGo] at hx
    by_cases h0 : size it = 0
    · rw [if_pos h0] at hx; exact ih used x hx
    · rw [if_neg h0] at hx
      by_cases h1 : used + size it > b
      · rw [if_pos h1] at hx; exact ih used x hx
      · rw [if_neg h1] at hx
        rcases List.mem_cons.mp hx with rfl | hx'
        · omega
        · exact ih _ x hx'

theorem selectWithinBudget_pos (size : α → Nat) (items : List α) (b : Nat) :
    ∀ x ∈ selectWithinBudget size items b, 0 < size x := fun x hx =>
  selectGo_pos size b items 0 x hx

theorem selectGo_eq_spec (size : α → Nat) (b : Nat) :
    ∀ (items : List α) (used : Nat), used ≤ b →
      (∀ x ∈ items, 0 < size x) →
      selectGo size b items used = specSelectGo size items (b - used) := by
  intro items
  induction items with
  | nil => intro used _ _; simp [selectGo, specSelectGo]
  | cons it rest ih =>
    intro used hu hpos
    have hposit : 0 < size it := hpos it (List.mem_cons_self it rest)
    simp only [selectGo, specSelectGo]
    rw [if_neg (by omega : ¬ size it = 0)]
    by_cases h1 : used + size it > b
    · rw [if_pos h1, if_pos (by omega : size it > b - used)]
      exact ih used hu (fun x hx => hpos x (List.mem_cons_of_mem it hx))
    · rw [if_neg h1, if_neg (by omega : ¬ size it > b - used)]
      have harith : b - used - size it = b - (used + size it) := by omega
      rw [harith,
        ih (used + size it) (by omega) (fun x hx => hpos x (List.mem_cons_of_mem it hx))]

theorem selectWithinBudget_eq_spec (size : α → Nat) (items : List α) (b : Nat)
    (hpos : ∀ x ∈ items, 0 < size x) :
    selectWithinBudget size items b = specSelect size items b := by
  have := selectGo_eq_spec size b items 0 (Nat.zero_le b) hpos
  simpa [selectWithinBudget, specSelect] using this

/-! ### Generic fold-invariant helper -/

theorem foldlPreserve {β γ : Type} {P : γ → Prop} (f : γ → β → γ)
    (hf : ∀ st x, P st → P (f st x)) :
    ∀ (l : List β) (st : γ), P st → P (l.foldl f st) := by
  intro l
  induction l with
  | nil => intro st h; simpa using h
  | cons x xs ih => intro st h; exact ih (f st x) (hf st x h)

/-! ### Lemmas about newline splitting (for C8) -/

theorem splitOnNl_ne_nil (l : List Char) : splitOnNl l ≠ [] := by
  induction l using splitOnNl.induct with
  | case1 => simp [splitOnNl]
  | case2 rest ih => simp [splitOnNl]
  | case3 c rest hc hnil ih => simp [splitOnNl, hc, hnil]
  | case4 c rest hc f fs heq ih => simp [splitOnNl, hc, heq]

theorem splitOnNl_intercalate (l : List Char) :
    List.intercalate ['\n'] (splitOnNl l) = l := by
  induction l using splitOnNl.induct with
  | case1 => simp [splitOnNl, List.intercalate]
  | case2 rest ih =>
    have hne := splitOnNl_ne_nil rest
    rw [splitOnNl, if_pos rfl]
    match h2 : splitOnNl rest with
    | [] => exact absurd h2 hne
    | f :: fs =>
      rw [h2] at ih
      simp only [List.intercalate, List.intersperse, List.flatten] at ih ⊢
      simpa using ih
  | case3 c rest hc hnil ih => exact absurd hnil (splitOnNl_ne_nil rest)
  | case4 c rest hc f fs heq ih =>
    rw [splitOnNl, if_neg hc]
    simp only [heq]
    rw [heq] at ih
    match fs with
    | [] =>
      simp only [List.intercalate] at ih ⊢
      simp_all
    | g :: gs =>
      simp only [List.intercalate, List.intersperse] at ih ⊢
      simp_all

theorem splitOnNl_no_newline (l : List Char) :
    ∀ f ∈ splitOnNl l, '\n' ∉ f := by
  induction l using splitOnNl.induct with
  | case1 => simp [splitOnNl]
  | case2 rest ih =>
    rw [splitOnNl, if_pos rfl]
    intro f hf
    rcases List.mem_cons.mp hf with rfl | hf'
    · simp
    · exact ih f hf'
  | case3 c rest hc hnil ih => exact absurd hnil (splitOnNl_ne_nil rest)
  | case4 c rest hc f fs heq ih =>
    rw [splitOnNl, if_neg hc]
    simp only [heq]
    rw [heq] at ih
    intro g hg
    rcases List.mem_cons.mp hg with rfl | hg'
    · intro hmem
      rcases List.mem_cons.mp hmem with h1 | h1
      · exact hc h1.symm
      · exact ih f (List.mem_cons_self f fs) h1
    · exact ih g (List.mem_cons_of_mem f hg')

theorem normalizeNewlines_no_cr (l : List Char) :
    ∀ c ∈ normalizeNewlines l, c ≠ '\r' := by
  induction l using normalizeNewlines.induct with
  | case1 => simp [normalizeNewlines]
  | case2 =>
    intro x hx
    rw [normalizeNewlines, if_pos rfl] at hx
    rcases List.mem_cons.mp hx with rfl | hx'
    · decide
    · simp [normalizeNewlines] at hx'
  | case3 rest ih =>
    intro x hx
    rw [normalizeNewlines, if_pos rfl] at hx
    simp only [if_pos rfl] at hx
    rcases List.mem_cons.mp hx with rfl | hx'
    · decide
    · exact ih x hx'
  | case4 c rest hcn ih =>
    intro x hx
    rw [normalizeNewlines, if_pos rfl] at hx
    rw [if_neg hcn] at hx
    rcases List.mem_cons.mp hx with rfl | hx'
    · decide
    · exact ih x hx'
  | case5 c rest hcr ih =>
    intro x hx
    rw [normalizeNewlines.eq_def] at hx
    simp only [] at hx
    rw [if_neg hcr] at hx
    rcases List.mem_cons.mp hx with rfl | hx'
    · exact hcr
    · exact ih x hx'

/-! ### Lemmas about the parse manager -/

theorem ensure_ok_clean (P : ParserFns) (now : Nat) (s s' : ExtractorState)
    (hInv : CleanNoEdits s)
    (h : ensureIncrementalParseUpToDate P now s = .ok s') :
    s'.dirty = false ∧ s'.pendingEdits = [] := by
  unfold ensureIncrementalParseUpToDate at h
  by_cases hd : s.dirty = true
  · rw [hd] at h
    simp only [Bool.not_true, Bool.false_eq_true, if_false] at h
    cases ht : s.tree with
    | none =>
      rw [ht] at h
      dsimp only [] at h
      cases hp : P.parse s.model.value none with
      | none => rw [hp] at h; cases h
      | some t => rw [hp] at h; cases h; exact ⟨rfl, rfl⟩
    | some t =>
      rw [ht] at h
      dsimp only [] at h
      cases hp : P.parse s.model.value (some (s.pendingEdits.foldl P.editTree t)) with
      | none => rw [hp] at h; cases h
      | some t2 => rw [hp] at h; cases h; exact ⟨rfl, rfl⟩
  · have hd' : s.dirty = false := by
      cases hdd : s.dirty
      · rfl
      · exact absurd hdd hd
    rw [hd'] at h
    simp only [Bool.not_false, if_true] at h
    cases h
    exact ⟨hd', hInv hd'⟩

theorem ensure_ok_of_total (P : ParserFns) (now : Nat) (s : ExtractorState)
    (hp : ∀ txt hint, (P.parse txt hint).isSome = true)
    (ht : s.tree.isSome = true) :
    ∃ s', ensureIncrementalParseUpToDate P now s = .ok s' ∧ s'.tree.isSome = true := by
  unfold ensureIncrementalParseUpToDate
  by_cases hd : s.dirty = true
  · rw [hd]
    simp only [Bool.not_true, Bool.false_eq_true, if_false]
    cases htt : s.tree with
    | none => rw [htt] at ht; cases ht
    | some t =>
      dsimp only []
      cases hpp : P.parse s.model.value (some (s.pendingEdits.foldl P.editTree t)) with
      | none =>
        have := hp s.model.value (some (s.pendingEdits.foldl P.editTree t))
        rw [hpp] at this
        cases this
      | some t2 => exact ⟨_, rfl, rfl⟩
  · have hd' : s.dirty = false := by
      cases hdd : s.dirty
      · rfl
      · exact absurd hdd hd
    rw [hd']
    simp only [Bool.not_false, if_true]
    exact ⟨s, rfl, ht⟩

theorem getContext_ok_state (P : ParserFns) (now : Nat) (s : ExtractorState)
    (cursor : Position) (opts : ContextOptions) (fuel : Nat)
    (r : ExtractContextResult) (s' : ExtractorState)
    (h : getContextAroundCursorE P now s cursor opts fuel = .ok (r, s')) :
    ensureIncrementalParseUpToDate P now s = .ok s' := by
  unfold getContextAroundCursorE at h
  cases hE : ensureIncrementalParseUpToDate P now s with
  | error e => rw [hE] at h; cases h
  | ok s1 =>
    rw [hE] at h
    simp only [bind, Except.bind, Except.ok.injEq] at h
    cases h
    rfl

theorem getGlobalDecls_ok_state (P : ParserFns) (now : Nat) (s : ExtractorState)
    (cursor : Position) (opts : ContextOptions) (fuel : Nat)
    (r : GlobalDeclarationsResult) (s' : ExtractorState)
    (h : getGlobalDeclarationsE P now s cursor opts fuel = .ok (r, s')) :
    ensureIncrementalParseUpToDate P now s = .ok s' := by
  unfold getGlobalDeclarationsE at h
  cases hE : ensureIncrementalParseUpToDate P now s with
  | error e => rw [hE] at h; cases h
  | ok s1 =>
    rw [hE] at h
    simp only [bind, Except.bind] at h
    cases htt : s1.tree with
    | none =>
      rw [htt] at h
      simp only [Except.ok.injEq] at h
      cases h
      rfl
    | some root =>
      rw [htt] at h
      simp only [Except.ok.injEq] at h
      cases h
      rfl

theorem getRanked_ok_state (P : ParserFns) (now : Nat) (STOP : List String)
    (expNeg : Nat → Fr) (s : ExtractorState) (cursor : Position)
    (opts : ContextOptions) (fuel : Nat)
    (res : ExtractRankedContextSections) (s' : ExtractorState)
    (h : getRankedContextSectionsE P now STOP expNeg s cursor opts fuel = .ok (res, s')) :
    ensureIncrementalParseUpToDate P now s = .ok s' := by
  unfold getRankedContextSectionsE at h
  dsimp only [] at h
  cases hE : getContextAroundCursorE P now s cursor
      { opts with
        rawPrefixLines := some (opts.rawPrefixLines.getD 5)
        rawSuffixLines := some (opts.rawSuffixLines.getD 5)
        maxCharsBudget := none } fuel with
  | error e => rw [hE] at h; cases h
  | ok ts =>
    rw [hE] at h
    simp only [bind, Except.bind] at h
    cases htt : ts.2.tree with
    | none => rw [htt] at h; cases h
    | some root =>
      rw [htt] at h
      simp only [Except.ok.injEq] at h
      cases h
      exact getContext_ok_state P now s cursor _ fuel ts.1 ts.2 (by rw [hE])

/-- Extracts the pipeline-shape equation from a successful ranked run. -/
theorem getRanked_ok_shape (P : ParserFns) (now : Nat) (STOP : List String)
    (expNeg : Nat → Fr) (s : ExtractorState) (cursor : Position)
    (opts : ContextOptions) (fuel : Nat)
    (res : ExtractRankedContextSections) (s' : ExtractorState)
    (h : getRankedContextSectionsE P now STOP expNeg s cursor opts fuel = .ok (res, s')) :
    ∃ (root : STree) (tierA : ExtractContextResult),
      s'.tree = some root ∧
      res = rankedPipeline STOP expNeg root s'.model cursor tierA
        (deriveBudgets (max 1000 (opts.maxCharsBudget.getD 8000)).toNat
          (opts.tierPercents.getD defaultTierPercents)) fuel := by
  unfold getRankedContextSectionsE at h
  dsimp only [] at h
  cases hE : getContextAroundCursorE P now s cursor
      { opts with
        rawPrefixLines := some (opts.rawPrefixLines.getD 5)
        rawSuffixLines := some (opts.rawSuffixLines.getD 5)
        maxCharsBudget := none } fuel with
  | error e => rw [hE] at h; cases h
  | ok ts =>
    rw [hE] at h
    simp only [bind, Except.bind] at h
    cases htt : ts.2.tree with
    | none => rw [htt] at h; cases h
    | some root =>
      rw [htt] at h
      simp only [Except.ok.injEq, Prod.mk.injEq] at h
      obtain ⟨h1, h2⟩ := h
      subst h2
      exact ⟨root, ts.1, htt, h1.symm⟩

/-! ### Lemmas about ranges and overlap -/

theorem overlapsB_comm (a b : Rng) : overlapsB a b = overlapsB b a := by
  simp only [overlapsB, ge_iff_le, Bool.or_comm]

theorem overlapsB_self (r : Rng) (h : r.startOffset < r.endOffset) :
    overlapsB r r = true := by
  unfold overlapsB
  rw [decide_eq_false (by omega : ¬ r.endOffset ≤ r.startOffset)]
  rfl

theorem sum_map_le_of_sublist (f : α → Nat) {l1 l2 : List α} (h : l1.Sublist l2) :
    (l1.map f).sum ≤ (l2.map f).sum := by
  induction h with
  | slnil => simp
  | cons a h ih => simp only [List.map_cons, List.sum_cons]; omega
  | cons₂ a h ih => simp only [List.map_cons, List.sum_cons]; omega

theorem sumSizes_append (l1 l2 : List Rng) :
    sumSizes (l1 ++ l2) = sumSizes l1 + sumSizes l2 := by
  simp [sumSizes]

theorem sumSizes_sublist {l1 l2 : List Rng} (h : l1.Sublist l2) :
    sumSizes l1 ≤ sumSizes l2 :=
  sum_map_le_of_sublist _ h

/-! ### Lemmas about the ranking comparator -/

theorem rankedLe_iff (a b : RankedBlock) :
    rankedLe a b = true ↔
      b.score.toRat < a.score.toRat ∨
        (a.score.toRat = b.score.toRat ∧ a.sizeChars ≤ b.sizeChars) := by
  unfold rankedLe
  by_cases h : Fr.beq a.score b.score = true
  · have heq := (Fr.beq_iff _ _).mp h
    rw [if_pos h]
    simp only [decide_eq_true_eq]
    constructor
    · intro hs; exact Or.inr ⟨heq, hs⟩
    · rintro (hlt | ⟨_, hs⟩)
      · exact absurd heq (ne_of_gt hlt)
      · exact hs
  · have hne : a.score.toRat ≠ b.score.toRat := fun hc => h ((Fr.beq_iff _ _).mpr hc)
    rw [if_neg h, Fr.blt_iff]
    constructor
    · exact fun hlt => Or.inl hlt
    · rintro (hlt | ⟨hc, _⟩)
      · exact hlt
      · exact absurd hc hne

theorem rankedLe_total (a b : RankedBlock) :
    rankedLe a b = true ∨ rankedLe b a = true := by
  rcases lt_trichotomy a.score.toRat b.score.toRat with h | h | h
  · right; exact (rankedLe_iff b a).mpr (Or.inl h)
  · rcases Nat.le_total a.sizeChars b.sizeChars with hs | hs
    · left; exact (rankedLe_iff a b).mpr (Or.inr ⟨h, hs⟩)
    · right; exact (rankedLe_iff b a).mpr (Or.inr ⟨h.symm, hs⟩)
  · left; exact (rankedLe_iff a b).mpr (Or.inl h)

theorem rankedLe_trans (a b c : RankedBlock) :
    rankedLe a b = true → rankedLe b c = true → rankedLe a c = true := by
  intro h1 h2
  rcases (rankedLe_iff a b).mp h1 with hab | hab <;>
    rcases (rankedLe_iff b c).mp h2 with hbc | hbc
  · exact (rankedLe_iff a c).mpr (Or.inl (lt_trans hbc hab))
  · exact (rankedLe_iff a c).mpr (Or.inl (by rw [← hbc.1]; exact hab))
  · exact (rankedLe_iff a c).mpr (Or.inl (by rw [hab.1]; exact hbc))
  · exact (rankedLe_iff a c).mpr (Or.inr ⟨hab.1.trans hbc.1, le_trans hab.2 hbc.2⟩)

/-! ### Lemmas about the ranked pipeline (for C1 and C2) -/

theorem expandWithDependencies_spec (root : STree) (fuel : Nat)
    (picked : List BlockRange) (gi : List (String × BlockRange))
    (already : List Rng) (budget : Nat) :
    ∃ adds, expandWithDependencies root fuel picked gi already budget =
      already ++ adds ∧ sumSizes adds ≤ budget := by
  have hinner : ∀ (st : List Rng × Nat) (name : String),
      (∃ adds, st.1 = already ++ adds ∧ sumSizes adds + st.2 ≤ budget) →
      (∃ adds, (depAddStep gi st name).1 = already ++ adds ∧
        sumSizes adds + (depAddStep gi st name).2 ≤ budget) := by
    intro st name hst
    obtain ⟨adds, h1, h2⟩ := hst
    unfold depAddStep
    cases hl : indexLookup gi name with
    | none => exact ⟨adds, h1, h2⟩
    | some dep =>
      dsimp only []
      split_ifs with hc hz
      · exact ⟨adds, h1, h2⟩
      · exact ⟨adds, h1, h2⟩
      · simp only [Bool.or_eq_true, decide_eq_true_eq, not_or] at hz
        refine ⟨adds ++ [⟨dep.startOffset, dep.endOffset⟩], ?_, ?_⟩
        · rw [h1, List.append_assoc]
        · rw [sumSizes_append]
          simp only [sumSizes, List.map_cons, List.map_nil, List.sum_cons,
            List.sum_nil] at h2 ⊢
          omega
  obtain ⟨adds, h1, h2⟩ :=
    @foldlPreserve BlockRange (List Rng × Nat)
      (fun st => ∃ adds, st.1 = already ++ adds ∧ sumSizes adds + st.2 ≤ budget)
      (fun st b => (freeIdentifiersOf fuel root b.ref).foldl (depAddStep gi) st)
      (fun st b hst => foldlPreserve (depAddStep gi) hinner _ st hst)
      picked (already, budget) ⟨[], by simp, by simp [sumSizes]⟩
  exact ⟨adds, h1, by omega⟩

theorem rpPickedB_props (STOP : List String) (expNeg : Nat → Fr) (root : STree)
    (m : TextModel) (baseRange : Rng) (cursor : Position) (bB : Nat)
    (tt : List String) (fuel : Nat) :
    ∀ rb ∈ rpPickedB STOP expNeg root m baseRange cursor bB tt fuel,
      rb ∈ rpRankedB STOP expNeg root m baseRange cursor bB tt fuel ∧
      overlapsB rb.rng baseRange = false := by
  intro rb hrb
  unfold rpPickedB selectWithinBudget at hrb
  have hmem := (selectGo_sublist _ bB _ 0).subset hrb
  have h := List.mem_filter.mp hmem
  refine ⟨h.1, ?_⟩
  have hp := h.2
  simp only [List.any_cons, List.any_nil, Bool.or_false, Bool.not_eq_true'] at hp
  exact hp

theorem rpRankedB_offsets (STOP : List String) (expNeg : Nat → Fr) (root : STree)
    (m : TextModel) (baseRange : Rng) (cursor : Position) (bB : Nat)
    (tt : List String) (fuel : Nat) :
    ∀ rb ∈ rpRankedB STOP expNeg root m baseRange cursor bB tt fuel,
      ∃ cb ∈ rpDeclOnly root m baseRange,
        rb.startOffset = cb.startOffset ∧ rb.endOffset = cb.endOffset := by
  intro rb hrb
  unfold rpRankedB scoreCandidates at hrb
  rw [mem_jsSort] at hrb
  obtain ⟨cb, hcb, henr⟩ := List.mem_map.mp hrb
  exact ⟨cb, hcb, by rw [← henr]; exact rfl, by rw [← henr]; exact rfl⟩

theorem rpPickedC_mem (STOP : List String) (root : STree) (m : TextModel)
    (baseRange : Rng) (cursor : Position) (bC : Nat) (fuel : Nat) :
    ∀ blk ∈ rpPickedC STOP root m baseRange cursor bC fuel,
      blk ∈ rpSimilarAll STOP root m baseRange cursor fuel := by
  intro blk hblk
  unfold rpPickedC at hblk
  have h1 := (List.take_sublist 3 _).subset hblk
  unfold selectWithinBudget at h1
  exact (selectGo_sublist _ _ _ _).subset h1

theorem rpSimilarAll_props (STOP : List String) (root : STree) (m : TextModel)
    (baseRange : Rng) (cursor : Position) (fuel : Nat) :
    ∀ blk ∈ rpSimilarAll STOP root m baseRange cursor fuel,
      overlapsB blk.rng baseRange = false ∧
      ∀ g ∈ rpDeclOnly root m baseRange, overlapsB blk.rng g.rng = false := by
  intro blk hblk
  unfold rpSimilarAll at hblk
  dsimp only [] at hblk
  obtain ⟨s, hs, hs1⟩ := List.mem_map.mp hblk
  have h2 := (List.mem_filter.mp hs).2
  rw [Bool.and_eq_true] at h2
  have h3 := h2.2
  rw [Bool.not_eq_true'] at h3
  rw [List.any_eq_false] at h3
  subst hs1
  constructor
  · have hb := h3 baseRange (by simp)
    simpa using hb
  · intro g hg
    have hgmem : g.rng ∈ ([baseRange] ++
        (rpDeclOnly root m baseRange).map BlockRange.rng ++
        (collectOtherTestBlocks root m none).map BlockRange.rng) := by
      rw [List.mem_append, List.mem_append]
      exact Or.inl (Or.inr (List.mem_map_of_mem _ hg))
    have hb := h3 _ hgmem
    simpa using hb

theorem rpDepExpanded_props (STOP : List String) (expNeg : Nat → Fr)
    (root : STree) (m : TextModel) (baseRange : Rng) (cursor : Position)
    (budgets : Budgets) (tt : List String) (fuel : Nat) :
    ∀ r ∈ rpDepExpanded STOP expNeg root m baseRange cursor budgets tt fuel,
      overlapsB r baseRange = false ∧
      (∀ rb ∈ rpPickedB STOP expNeg root m baseRange cursor budgets.B tt fuel,
        overlapsB r rb.rng = false) ∧
      (∀ blk ∈ rpPickedC STOP root m baseRange cursor budgets.C fuel,
        overlapsB r blk.rng = false) := by
  intro r hr
  unfold rpDepExpanded at hr
  dsimp only [] at hr
  have h2 := List.mem_filter.mp hr
  have h1 := List.mem_filter.mp h2.1
  have hbc := h2.2
  rw [Bool.not_eq_true', List.any_eq_false] at hbc
  refine ⟨by simpa using h1.2, ?_, ?_⟩
  · intro rb hrb
    have hmem : rb.rng ∈
        ((rpPickedB STOP expNeg root m baseRange cursor budgets.B tt fuel).map
            RankedBlock.rng ++
          (rpPickedC STOP root m baseRange cursor budgets.C fuel).map
            BlockRange.rng) :=
      List.mem_append_left _ (List.mem_map_of_mem _ hrb)
    simpa using hbc _ hmem
  · intro blk hblk
    have hmem : blk.rng ∈
        ((rpPickedB STOP expNeg root m baseRange cursor budgets.B tt fuel).map
            RankedBlock.rng ++
          (rpPickedC STOP root m baseRange cursor budgets.C fuel).map
            BlockRange.rng) :=
      List.mem_append_right _ (List.mem_map_of_mem _ hblk)
    simpa using hbc _ hmem

theorem rpDeclRanges_props (STOP : List String) (expNeg : Nat → Fr)
    (root : STree) (m : TextModel) (baseRange : Rng) (cursor : Position)
    (budgets : Budgets) (tt : List String) (fuel : Nat) :
    ∀ r ∈ rpDeclRanges STOP expNeg root m baseRange cursor budgets tt fuel,
      overlapsB r baseRange = false ∧
      ∀ blk ∈ rpPickedC STOP root m baseRange cursor budgets.C fuel,
        overlapsB r blk.rng = false := by
  intro r hr
  unfold rpDeclRanges at hr
  dsimp only [] at hr
  rcases List.mem_append.mp hr with h1 | h2
  · obtain ⟨rb, hrb, hrbeq⟩ := List.mem_map.mp h1
    obtain ⟨hrbmem, hrbA⟩ :=
      rpPickedB_props STOP expNeg root m baseRange cursor budgets.B tt fuel rb hrb
    subst hrbeq
    refine ⟨hrbA, ?_⟩
    intro blk hblk
    obtain ⟨cb, hcb, hs, he⟩ :=
      rpRankedB_offsets STOP expNeg root m baseRange cursor budgets.B tt fuel rb hrbmem
    have hC := (rpSimilarAll_props STOP root m baseRange cursor fuel blk
      (rpPickedC_mem STOP root m baseRange cursor budgets.C fuel blk hblk)).2 cb hcb
    have hrng : rb.rng = cb.rng := by
      simp [RankedBlock.rng, BlockRange.rng, hs, he]
    rw [hrng, overlapsB_comm]
    exact hC
  · have hdep := List.mem_filter.mp h2
    have hprops := rpDepExpanded_props STOP expNeg root m baseRange cursor
      budgets tt fuel r hdep.1
    exact ⟨hprops.1, hprops.2.2⟩

theorem rpPickedB_sum (STOP : List String) (expNeg : Nat → Fr) (root : STree)
    (m : TextModel) (baseRange : Rng) (cursor : Position) (bB : Nat)
    (tt : List String) (fuel : Nat) :
    sumSizes ((rpPickedB STOP expNeg root m baseRange cursor bB tt fuel).map
      RankedBlock.rng) ≤ bB := by
  have h := selectWithinBudget_sum
    (fun (b : RankedBlock) => b.endOffset - b.startOffset)
    ((rpRankedB STOP expNeg root m baseRange cursor bB tt fuel).filter
      (fun it => !([baseRange].any (fun t => overlapsB it.rng t)))) bB
  unfold rpPickedB
  simpa [sumSizes, List.map_map, Function.comp, RankedBlock.rng] using h

theorem rpPickedC_sum (STOP : List String) (root : STree) (m : TextModel)
    (baseRange : Rng) (cursor : Position) (bC : Nat) (fuel : Nat) :
    sumSizes ((rpPickedC STOP root m baseRange cursor bC fuel).map
      BlockRange.rng) ≤ bC := by
  have hsub : (rpPickedC STOP root m baseRange cursor bC fuel).Sublist
      (selectWithinBudget (fun (b : BlockRange) => b.endOffset - b.startOffset)
        (rpSimilarAll STOP root m baseRange cursor fuel) bC) := by
    unfold rpPickedC
    exact List.take_sublist 3 _
  have h1 := sumSizes_sublist (hsub.map BlockRange.rng)
  have h2 := selectWithinBudget_sum
    (fun (b : BlockRange) => b.endOffset - b.startOffset)
    (rpSimilarAll STOP root m baseRange cursor fuel) bC
  have h3 : sumSizes ((selectWithinBudget
      (fun (b : BlockRange) => b.endOffset - b.startOffset)
      (rpSimilarAll STOP root m baseRange cursor fuel) bC).map BlockRange.rng) ≤ bC := by
    simpa [sumSizes, List.map_map, Function.comp, BlockRange.rng] using h2
  exact le_trans h1 h3

theorem rangesBC_pos (STOP : List String) (expNeg : Nat → Fr) (root : STree)
    (m : TextModel) (baseRange : Rng) (cursor : Position) (bB bC : Nat)
    (tt : List String) (fuel : Nat) :
    ∀ r ∈ ((rpPickedB STOP expNeg root m baseRange cursor bB tt fuel).map
        RankedBlock.rng ++
      (rpPickedC STOP root m baseRange cursor bC fuel).map BlockRange.rng),
      r.startOffset < r.endOffset := by
  intro r hr
  rcases List.mem_append.mp hr with h | h
  · obtain ⟨rb, hrb, heq⟩ := List.mem_map.mp h
    unfold rpPickedB selectWithinBudget at hrb
    have hpos := selectGo_pos _ _ _ _ rb hrb
    rw [← heq]
    simp only [RankedBlock.rng]
    omega
  · obtain ⟨blk, hblk, heq⟩ := List.mem_map.mp h
    unfold rpPickedC at hblk
    have hm := (List.take_sublist 3 _).subset hblk
    unfold selectWithinBudget at hm
    have hpos := selectGo_pos _ _ _ _ blk hm
    rw [← heq]
    simp only [BlockRange.rng]
    omega

theorem depFiltered_sum (root : STree) (fuel : Nat) (picked : List BlockRange)
    (gi : List (String × BlockRange)) (baseRange : Rng) (bc : List Rng)
    (budget : Nat) (hpos : ∀ r ∈ bc, r.startOffset < r.endOffset) :
    sumSizes (((expandWithDependencies root fuel picked gi bc budget).filter
        (fun r => !(overlapsB r baseRange))).filter
      (fun r => !(bc.any (fun t => overlapsB r t)))) ≤ budget := by
  obtain ⟨adds, hE, hadds⟩ :=
    expandWithDependencies_spec root fuel picked gi bc budget
  rw [hE, List.filter_append, List.filter_append]
  have hnil : ((bc.filter (fun r => !(overlapsB r baseRange))).filter
      (fun r => !(bc.any (fun t => overlapsB r t)))) = [] := by
    rw [List.filter_eq_nil_iff]
    intro r hr
    have hrbc : r ∈ bc := (List.mem_filter.mp hr).1
    have hself := overlapsB_self r (hpos r hrbc)
    simp only [Bool.not_eq_true', Bool.not_eq_false, List.any_eq_true]
    exact ⟨r, hrbc, hself⟩
  rw [hnil, List.nil_append]
  have hsl : (((adds.filter (fun r => !(overlapsB r baseRange))).filter
      (fun r => !(bc.any (fun t => overlapsB r t))))).Sublist adds :=
    (List.filter_sublist _).trans (List.filter_sublist _)
  exact le_trans (sumSizes_sublist hsl) hadds

theorem rpDepExpanded_sum (STOP : List String) (expNeg : Nat → Fr)
    (root : STree) (m : TextModel) (baseRange : Rng) (cursor : Position)
    (budgets : Budgets) (tt : List String) (fuel : Nat) :
    sumSizes (rpDepExpanded STOP expNeg root m baseRange cursor budgets tt fuel) ≤
      budgets.B + budgets.C -
        sumSizes ((rpPickedB STOP expNeg root m baseRange cursor budgets.B tt fuel).map
            RankedBlock.rng ++
          (rpPickedC STOP root m baseRange cursor budgets.C fuel).map
            BlockRange.rng) := by
  unfold rpDepExpanded
  dsimp only []
  exact depFiltered_sum root fuel _ _ baseRange _ _
    (rangesBC_pos STOP expNeg root m baseRange cursor budgets.B budgets.C tt fuel)

theorem rpDeclRanges_sum (STOP : List String) (expNeg : Nat → Fr)
    (root : STree) (m : TextModel) (baseRange : Rng) (cursor : Position)
    (budgets : Budgets) (tt : List String) (fuel : Nat) :
    sumSizes (rpDeclRanges STOP expNeg root m baseRange cursor budgets tt fuel) +
      sumSizes ((rpPickedC STOP root m baseRange cursor budgets.C fuel).map
        BlockRange.rng) ≤ budgets.B + budgets.C := by
  have hB := rpPickedB_sum STOP expNeg root m baseRange cursor budgets.B tt fuel
  have hC := rpPickedC_sum STOP root m baseRange cursor budgets.C fuel
  have hDep := rpDepExpanded_sum STOP expNeg root m baseRange cursor budgets tt fuel
  rw [sumSizes_append] at hDep
  have hfs : ((rpDepExpanded STOP expNeg root m baseRange cursor budgets tt fuel).filter
      (fun r => (rpDeclOnly root m baseRange).any (fun g =>
        decide (g.startOffset = r.startOffset) &&
          decide (g.endOffset = r.endOffset)))).Sublist
      (rpDepExpanded STOP expNeg root m baseRange cursor budgets tt fuel) :=
    List.filter_sublist _
  have hfsum := sumSizes_sublist hfs
  have hsplit : sumSizes (rpDeclRanges STOP expNeg root m baseRange cursor budgets tt fuel) =
      sumSizes ((rpPickedB STOP expNeg root m baseRange cursor budgets.B tt fuel).map
        RankedBlock.rng) +
      sumSizes ((rpDepExpanded STOP expNeg root m baseRange cursor budgets tt fuel).filter
        (fun r => (rpDeclOnly root m baseRange).any (fun g =>
          decide (g.startOffset = r.startOffset) &&
            decide (g.endOffset = r.endOffset)))) := by
    unfold rpDeclRanges
    dsimp only []
    rw [sumSizes_append]
  omega

/-! ### Claim theorems -/

set_option maxRecDepth 16000 in
/-- C1 (counterexample): with two `const` declarations sharing buffer
line 1, the Tier B offsets returned by `getRankedContextSections` hold
the same full-line range twice -- two accepted ranges that overlap, so
the accepted ranges are not pairwise disjoint across the tiers. -/
theorem C1_counterexample :
    c1run = .ok (c1res, cexState) ∧
    c1res.meta.offsets.B = [⟨0, 25⟩, ⟨0, 25⟩] ∧
    overlapsB ⟨0, 25⟩ ⟨0, 25⟩ = true := ⟨rfl, rfl, by decide⟩

/-- C1 (amended): the accepted ranges of *different* tiers are pairwise
disjoint -- every Tier B and Tier C range is disjoint from the Tier A
range, every Tier B range is disjoint from every Tier C range, and
Tier D accepts nothing -- because a lower-priority candidate
overlapping a higher-priority accepted range is dropped.  (Within one
tier, duplicate declaration ranges can both be accepted, as
`C1_counterexample` shows.) -/
theorem C1_amended (STOP : List String) (expNeg : Nat → Fr) (root : STree)
    (m : TextModel) (cursor : Position) (tierA : ExtractContextResult)
    (budgets : Budgets) (fuel : Nat) :
    (∀ a ∈ (rankedPipeline STOP expNeg root m cursor tierA budgets fuel).meta.offsets.A,
      ∀ b ∈ (rankedPipeline STOP expNeg root m cursor tierA budgets fuel).meta.offsets.B,
        overlapsB a b = false) ∧
    (∀ a ∈ (rankedPipeline STOP expNeg root m cursor tierA budgets fuel).meta.offsets.A,
      ∀ c ∈ (rankedPipeline STOP expNeg root m cursor tierA budgets fuel).meta.offsets.C,
        overlapsB a c = false) ∧
    (∀ b ∈ (rankedPipeline STOP expNeg root m cursor tierA budgets fuel).meta.offsets.B,
      ∀ c ∈ (rankedPipeline STOP expNeg root m cursor tierA budgets fuel).meta.offsets.C,
        overlapsB b c = false) ∧
    (rankedPipeline STOP expNeg root m cursor tierA budgets fuel).meta.offsets.D = [] := by
  dsimp only [rankedPipeline]
  refine ⟨?_, ?_, ?_, rfl⟩
  · intro a ha b hb
    rw [List.mem_singleton] at ha
    subst ha
    rw [overlapsB_comm]
    exact (rpDeclRanges_props _ _ _ _ _ _ _ _ _ b hb).1
  · intro a ha c hc
    rw [List.mem_singleton] at ha
    subst ha
    obtain ⟨blk, hblk, hceq⟩ := List.mem_map.mp hc
    rw [← hceq, overlapsB_comm]
    exact (rpSimilarAll_props _ _ _ _ _ _ blk
      (rpPickedC_mem _ _ _ _ _ _ _ blk hblk)).1
  · intro b hb c hc
    obtain ⟨blk, hblk, hceq⟩ := List.mem_map.mp hc
    rw [← hceq]
    exact (rpDeclRanges_props _ _ _ _ _ _ _ _ _ b hb).2 blk hblk

set_option maxRecDepth 16000 in
theorem C1_amended_witness :
    (⟨87, 757⟩ : Rng) ∈ (rankedPipeline [] expNegStub cexTree cexModel cexCursor
      ⟨[], 87, 757, .fallbackLines⟩ (deriveBudgets 8000 defaultTierPercents)
      30).meta.offsets.A ∧
    (⟨0, 25⟩ : Rng) ∈ (rankedPipeline [] expNegStub cexTree cexModel cexCursor
      ⟨[], 87, 757, .fallbackLines⟩ (deriveBudgets 8000 defaultTierPercents)
      30).meta.offsets.B ∧
    overlapsB ⟨87, 757⟩ ⟨0, 25⟩ = false := by
  have hA : (rankedPipeline [] expNegStub cexTree cexModel cexCursor
      ⟨[], 87, 757, .fallbackLines⟩ (deriveBudgets 8000 defaultTierPercents)
      30).meta.offsets.A = [⟨87, 757⟩] := rfl
  have hB : (rankedPipeline [] expNegStub cexTree cexModel cexCursor
      ⟨[], 87, 757, .fallbackLines⟩ (deriveBudgets 8000 defaultTierPercents)
      30).meta.offsets.B = [⟨0, 25⟩, ⟨0, 25⟩] := rfl
  have hmA : (⟨87, 757⟩ : Rng) ∈ (rankedPipeline [] expNegStub cexTree cexModel cexCursor
      ⟨[], 87, 757, .fallbackLines⟩ (deriveBudgets 8000 defaultTierPercents)
      30).meta.offsets.A := by rw [hA]; exact List.mem_singleton_self _
  have hmB : (⟨0, 25⟩ : Rng) ∈ (rankedPipeline [] expNegStub cexTree cexModel cexCursor
      ⟨[], 87, 757, .fallbackLines⟩ (deriveBudgets 8000 defaultTierPercents)
      30).meta.offsets.B := by rw [hB]; exact List.mem_cons_self _ _
  exact ⟨hmA, hmB,
    (C1_amended [] expNegStub cexTree cexModel cexCursor
      ⟨[], 87, 757, .fallbackLines⟩ (deriveBudgets 8000 defaultTierPercents) 30).1
      ⟨87, 757⟩ hmA ⟨0, 25⟩ hmB⟩

set_option maxRecDepth 16000 in
/-- C2 (counterexample): Tier A's text is never cut to Tier A's budget:
with a 1000-character total budget (Tier A budget 400) over a buffer
whose cursor window spans 670 characters, `linesAroundCursor` holds all
670 characters. -/
theorem C2_counterexample :
    c2run = .ok (c2res, cexState) ∧
    c2res.meta.budgets.A = 400 ∧
    c2res.linesAroundCursor.length = 670 ∧
    c2res.meta.budgets.A < c2res.linesAroundCursor.length :=
  ⟨rfl, rfl, rfl, by decide⟩

/-- C2 (amended): the packed tiers respect their budgets: Tier C's
accepted sizes sum to at most Tier C's budget, and Tiers B and C
together (dependency expansion draws on the leftover of the B+C pool)
sum to at most the B and C budgets combined.  Tier A's text is the raw
cursor window and is *not* budget-limited (`C2_counterexample`); a
too-large candidate is dropped entirely, never clipped. -/
theorem C2_amended (STOP : List String) (expNeg : Nat → Fr) (root : STree)
    (m : TextModel) (cursor : Position) (tierA : ExtractContextResult)
    (budgets : Budgets) (fuel : Nat) :
    sumSizes (rankedPipeline STOP expNeg root m cursor tierA budgets fuel).meta.offsets.C ≤
      budgets.C ∧
    sumSizes (rankedPipeline STOP expNeg root m cursor tierA budgets fuel).meta.offsets.B +
      sumSizes (rankedPipeline STOP expNeg root m cursor tierA budgets fuel).meta.offsets.C ≤
      budgets.B + budgets.C := by
  dsimp only [rankedPipeline]
  exact ⟨rpPickedC_sum _ _ _ _ _ _ _, rpDeclRanges_sum _ _ _ _ _ _ _ _ _⟩

/-- C8: for every start point and inserted text, after splitting the
text (line endings normalized to `\n`, i.e. the fragments contain no
newline, carry no carriage return, and reassemble to the normalized
text) into fragments, a single fragment leaves the row unchanged and
adds the fragment length to the column; otherwise the row advances by
`fragments - 1` and the column is the length of the last fragment. -/
theorem C8_advancePointByText (start : Pt) (text : Chars) :
    List.intercalate ['\n'] (splitOnNl (normalizeNewlines text)) = normalizeNewlines text ∧
    (∀ f ∈ splitOnNl (normalizeNewlines text), '\n' ∉ f) ∧
    (∀ c ∈ normalizeNewlines text, c ≠ '\r') ∧
    advancePointByText start text =
      (if (splitOnNl (normalizeNewlines text)).length = 1 then
        (⟨start.row, start.column + (((splitOnNl (normalizeNewlines text)).headD []).length : Int)⟩ : Pt)
      else
        ⟨start.row + (((splitOnNl (normalizeNewlines text)).length : Int) - 1),
          (((splitOnNl (normalizeNewlines text)).getLastD []).length : Int)⟩) := by
  refine ⟨splitOnNl_intercalate _, splitOnNl_no_newline _, normalizeNewlines_no_cr _, ?_⟩
  unfold advancePointByText
  rfl

/-- C3 (counterexample): on the empty buffer with cursor `{1,1}` -- a
state reachable by `create` on the empty model -- the strategy returned
by `getContextAroundCursor` is `top-level-with-syntax-sanity`, not the
claimed `fallback-lines`. -/
theorem C3_counterexample :
    createExtractor (constParser emptyTree) 0 emptyModel = .ok stateEmpty ∧
    c3res.strategy = .topLevelWithSyntaxSanity ∧
    ¬ c3res.strategy = .fallbackLines := by
  refine ⟨rfl, rfl, ?_⟩
  decide

/-- C3 (amended): on the empty buffer with cursor `{1,1}`,
`getContextAroundCursor` succeeds with empty text, offsets `0..0` and
strategy `top-level-with-syntax-sanity`. -/
theorem C3_amended_empty_buffer :
    c3run = .ok (⟨[], 0, 0, .topLevelWithSyntaxSanity⟩, stateEmpty) := rfl

/-- C4 (counterexample): from a created extractor, one buffer change
(making the state dirty) followed by a reparse that throws makes
`getContextAroundCursor` itself throw -- nothing catches the parse
failure and no null-tree raw-line fallback happens. -/
theorem C4_counterexample :
    createExtractor (constParser c4Tree0) 0 c4Model0 = .ok c4State0 ∧
    (getTreeStatus c4State1).isDirty = true ∧
    c4run = .error () := ⟨rfl, rfl, rfl⟩

/-- C4 (amended): whenever the external parse function is total and the
state holds a tree, none of the three public extraction queries throws:
each returns a well-formed result.  (A reparse that throws propagates
to the caller, as `C4_counterexample` shows.) -/
theorem C4_amended_no_throw (P : ParserFns) (now : Nat) (STOP : List String)
    (expNeg : Nat → Fr) (s : ExtractorState) (cursor : Position)
    (opts : ContextOptions) (fuel : Nat)
    (hp : ∀ txt hint, (P.parse txt hint).isSome = true)
    (ht : s.tree.isSome = true) :
    (getContextAroundCursorE P now s cursor opts fuel).isOk = true ∧
    (getGlobalDeclarationsE P now s cursor opts fuel).isOk = true ∧
    (getRankedContextSectionsE P now STOP expNeg s cursor opts fuel).isOk = true := by
  obtain ⟨s', hok, htree⟩ := ensure_ok_of_total P now s hp ht
  refine ⟨?_, ?_, ?_⟩
  · unfold getContextAroundCursorE
    rw [hok]
    rfl
  · unfold getGlobalDeclarationsE
    rw [hok]
    simp only [bind, Except.bind]
    cases htt : s'.tree with
    | none => rfl
    | some root => rfl
  · unfold getRankedContextSectionsE
    dsimp only []
    unfold getContextAroundCursorE
    rw [hok]
    simp only [bind, Except.bind]
    cases htt : s'.tree with
    | none => rw [htt] at htree; cases htree
    | some root => rfl

theorem C4_amended_witness :
    (getContextAroundCursorE (constParser emptyTree) 0 stateEmpty ⟨1, 1⟩ {} 20).isOk = true ∧
    (getGlobalDeclarationsE (constParser emptyTree) 0 stateEmpty ⟨1, 1⟩ {} 20).isOk = true ∧
    (getRankedContextSectionsE (constParser emptyTree) 0 [] expNegStub stateEmpty ⟨1, 1⟩ {} 20).isOk = true :=
  C4_amended_no_throw (constParser emptyTree) 0 [] expNegStub stateEmpty ⟨1, 1⟩ {} 20
    (fun _ _ => rfl) rfl

/-- C7: the dirty/clean cycle.  After `onModelContentChanged` the
status is dirty; from any clean-implies-no-edits state (an invariant of
all reachable states, established and preserved below), a successful
`ensureIncrementalParseUpToDate` -- hence any successful extraction
query or `forceBuildTree` -- leaves `isDirty = false` and
`pendingEditsCount = 0`. -/
theorem C7_dirty_clean_cycle :
    (∀ s newModel changes,
      (getTreeStatus (onModelContentChanged s newModel changes)).isDirty = true ∧
      CleanNoEdits (onModelContentChanged s newModel changes)) ∧
    (∀ P now m s', createExtractor P now m = .ok s' →
      (getTreeStatus s').isDirty = false ∧ (getTreeStatus s').pendingEditsCount = 0) ∧
    (∀ P now s s', CleanNoEdits s →
      ensureIncrementalParseUpToDate P now s = .ok s' →
      (getTreeStatus s').isDirty = false ∧ (getTreeStatus s').pendingEditsCount = 0) ∧
    (∀ P now s cursor opts fuel r s', CleanNoEdits s →
      getContextAroundCursorE P now s cursor opts fuel = .ok (r, s') →
      (getTreeStatus s').isDirty = false ∧ (getTreeStatus s').pendingEditsCount = 0) ∧
    (∀ P now s cursor opts fuel r s', CleanNoEdits s →
      getGlobalDeclarationsE P now s cursor opts fuel = .ok (r, s') →
      (getTreeStatus s').isDirty = false ∧ (getTreeStatus s').pendingEditsCount = 0) ∧
    (∀ P now STOP expNeg s cursor opts fuel res s', CleanNoEdits s →
      getRankedContextSectionsE P now STOP expNeg s cursor opts fuel = .ok (res, s') →
      (getTreeStatus s').isDirty = false ∧ (getTreeStatus s').pendingEditsCount = 0) ∧
    (∀ P now s s', CleanNoEdits s → forceBuildTree P now s = .ok s' →
      (getTreeStatus s').isDirty = false ∧ (getTreeStatus s').pendingEditsCount = 0) := by
  have hEnsure : ∀ P now s s', CleanNoEdits s →
      ensureIncrementalParseUpToDate P now s = .ok s' →
      (getTreeStatus s').isDirty = false ∧ (getTreeStatus s').pendingEditsCount = 0 := by
    intro P now s s' hInv h
    obtain ⟨h1, h2⟩ := ensure_ok_clean P now s s' hInv h
    exact ⟨h1, by simp [getTreeStatus, h2]⟩
  refine ⟨?_, ?_, hEnsure, ?_, ?_, ?_, ?_⟩
  · intro s newModel changes
    constructor
    · rfl
    · intro hcontra
      cases hcontra
  · intro P now m s' h
    unfold createExtractor at h
    cases hp : P.parse m.value none with
    | none => rw [hp] at h; cases h
    | some t => rw [hp] at h; cases h; exact ⟨rfl, rfl⟩
  · intro P now s cursor opts fuel r s' hInv h
    exact hEnsure P now s s' hInv (getContext_ok_state P now s cursor opts fuel r s' h)
  · intro P now s cursor opts fuel r s' hInv h
    exact hEnsure P now s s' hInv (getGlobalDecls_ok_state P now s cursor opts fuel r s' h)
  · intro P now STOP expNeg s cursor opts fuel res s' hInv h
    exact hEnsure P now s s' hInv
      (getRanked_ok_state P now STOP expNeg s cursor opts fuel res s' h)
  · intro P now s s' hInv h
    exact hEnsure P now s s' hInv h

theorem C7_witness :
    (getTreeStatus (onModelContentChanged c4State0 c4Model1 [c4Change])).isDirty = true ∧
    (getTreeStatus stateEmpty).isDirty = false ∧
    (getTreeStatus stateEmpty).pendingEditsCount = 0 := by
  refine ⟨(C7_dirty_clean_cycle.1 c4State0 c4Model1 [c4Change]).1, ?_⟩
  have h := (C7_dirty_clean_cycle.2.2.2.1 (constParser emptyTree) 0 stateEmpty ⟨1, 1⟩ {} 20
    c3res stateEmpty (fun _ => rfl) rfl)
  exact h

/-- C9: in the ten-global-constants scenario with a `pm.test` call
referencing `c2`, `c5`, `c9` and the cursor inside that call, with a
budget fitting only three declarations, `getGlobalDeclarations`
includes exactly the three referenced declarations (priority
current-scope, ahead of the seven unreferenced ones) and emits them in
original file order. -/
theorem C9_referenced_first :
    c9run = .ok (c9res, gdState) ∧
    c9res.declarations.map (fun d => d.name) = ["c2", "c5", "c9"] ∧
    (∀ d ∈ c9res.declarations, d.priority = "current-scope") ∧
    c9res.declarations.map (fun d => d.startOffset) = [14, 56, 112] ∧
    List.Pairwise (fun a b => a.startOffset < b.startOffset) c9res.declarations ∧
    c9res.meta.totalDeclarations = 10 ∧
    c9res.declarations.length = 3 := by
  refine ⟨rfl, by decide, by decide, by decide, by decide, by decide, by decide⟩

/-- C10: the total budget used by `getRankedContextSections` is
`max 1000 (maxCharsBudget ?? 8000)` -- any request below 1000 is raised
to 1000 -- and each tier budget is `⌊total * tierPercent⌋` clamped to
be never negative. -/
theorem C10_budget_clamp :
    (∀ (total : Nat) (perc : Fr × Fr × Fr × Fr),
      ((deriveBudgets total perc).A : Int) = max 0 ⌊(total : ℚ) * perc.1.toRat⌋ ∧
      ((deriveBudgets total perc).B : Int) = max 0 ⌊(total : ℚ) * perc.2.1.toRat⌋ ∧
      ((deriveBudgets total perc).C : Int) = max 0 ⌊(total : ℚ) * perc.2.2.1.toRat⌋ ∧
      ((deriveBudgets total perc).D : Int) = max 0 ⌊(total : ℚ) * perc.2.2.2.toRat⌋ ∧
      (deriveBudgets total perc).total =
        (deriveBudgets total perc).A + (deriveBudgets total perc).B +
          (deriveBudgets total perc).C + (deriveBudgets total perc).D) ∧
    (∀ P now STOP expNeg s cursor opts fuel res s',
      getRankedContextSectionsE P now STOP expNeg s cursor opts fuel = .ok (res, s') →
      res.meta.budgets =
        deriveBudgets (max 1000 (opts.maxCharsBudget.getD 8000)).toNat
          (opts.tierPercents.getD defaultTierPercents)) := by
  constructor
  · intro total perc
    have hfield : ∀ p : Fr,
        (((max 0 ((Fr.mul (Fr.ofNat total) p).floorI)).toNat : Int)) =
          max 0 ⌊(total : ℚ) * p.toRat⌋ := by
      intro p
      rw [Int.toNat_of_nonneg (le_max_left 0 _), Fr.floorI_eq, Fr.toRat_mul, Fr.toRat_ofNat]
    exact ⟨hfield perc.1, hfield perc.2.1, hfield perc.2.2.1, hfield perc.2.2.2, rfl⟩
  · intro P now STOP expNeg s cursor opts fuel res s' h
    obtain ⟨root, tierA, htree, hres⟩ :=
      getRanked_ok_shape P now STOP expNeg s cursor opts fuel res s' h
    rw [hres]
    rfl

/-- C5: `scoreCandidates` returns exactly the enriched candidates (a
permutation of one ranked block per input candidate, with the
read/called names of Tier A), sorted descending by score with ties
broken by smaller `sizeChars`; each block's lexical signal is
`clamp01(1 - |candidateStartLine - cursorLine| / 200)`, its reference
signal is `clamp01(1 - exp(-matchCount))` for the match count of its
defined names against the read/called names, and its score is
`0.30*lexical + 0.35*reference + 0.20*kind - 0.05*complexity +
0.20*titleOverlap`. -/
theorem C5_scoring (STOP : List String) (expNeg : Nat → Fr) (root : STree)
    (m : TextModel) (candidates : List BlockRange) (tierA : Rng)
    (cursor : Position) (tb : Nat) (tt : List String) (fuel : Nat)
    (reads calls : List String) (c : BlockRange) :
    List.Perm
      (scoreCandidates STOP expNeg root m candidates tierA cursor tb tt fuel)
      (candidates.map (enrichCandidate STOP expNeg root m
        (collectIdentifiersInRange root m tierA.startOffset tierA.endOffset fuel).1
        (collectIdentifiersInRange root m tierA.startOffset tierA.endOffset fuel).2
        cursor tb tt fuel)) ∧
    List.Pairwise
      (fun a b => b.score.toRat < a.score.toRat ∨
        (a.score.toRat = b.score.toRat ∧ a.sizeChars ≤ b.sizeChars))
      (scoreCandidates STOP expNeg root m candidates tierA cursor tb tt fuel) ∧
    (enrichCandidate STOP expNeg root m reads calls cursor tb tt fuel c).signals.lexical.toRat =
      max 0 (min 1 (1 -
        (((m.lineNumberAtOffset c.startOffset - cursor.lineNumber).natAbs : ℚ)) / 200)) ∧
    (enrichCandidate STOP expNeg root m reads calls cursor tb tt fuel c).signals.reference.toRat =
      max 0 (min 1 (1 - (expNeg (blockMatchCount reads calls
        (collectDefsForBlock fuel (nodeAtD root c.ref)))).toRat)) ∧
    (enrichCandidate STOP expNeg root m reads calls cursor tb tt fuel c).score.toRat =
      30 / 100 *
        (enrichCandidate STOP expNeg root m reads calls cursor tb tt fuel c).signals.lexical.toRat +
      35 / 100 *
        (enrichCandidate STOP expNeg root m reads calls cursor tb tt fuel c).signals.reference.toRat +
      20 / 100 *
        (enrichCandidate STOP expNeg root m reads calls cursor tb tt fuel c).signals.kind.toRat -
      5 / 100 *
        (enrichCandidate STOP expNeg root m reads calls cursor tb tt fuel c).signals.complexity.toRat +
      20 / 100 *
        max 0 (min 1
          ((blockTitleOverlap tt (blockNameCandidates STOP root fuel c) : ℚ) /
            ((max 1 tt.length : Nat) : ℚ))) := by
  have hL : W_LEX.toRat = 30 / 100 := by
    unfold W_LEX; rw [frMk_toRat _ _ (by norm_num)]; norm_num
  have hR : W_REF.toRat = 35 / 100 := by
    unfold W_REF; rw [frMk_toRat _ _ (by norm_num)]; norm_num
  have hK : W_KIND.toRat = 20 / 100 := by
    unfold W_KIND; rw [frMk_toRat _ _ (by norm_num)]; norm_num
  have hC : W_COMP.toRat = -(5 / 100) := by
    unfold W_COMP; rw [frMk_toRat _ _ (by norm_num)]; norm_num
  have hT : W_TITLE.toRat = 20 / 100 := by
    unfold W_TITLE; rw [frMk_toRat _ _ (by norm_num)]; norm_num
  refine ⟨?_, ?_, ?_, ?_, ?_⟩
  · dsimp only [scoreCandidates]
    exact jsSort_perm _ _
  · dsimp only [scoreCandidates]
    exact List.Pairwise.imp (fun h => (rankedLe_iff _ _).mp h)
      (jsSort_pairwise rankedLe rankedLe_total rankedLe_trans _)
  · dsimp only [enrichCandidate]
    rw [clamp01_toRat, Fr.toRat_sub, frOne_toRat,
      Fr.toRat_div _ _ (by norm_num [Fr.ofNat]), Fr.toRat_ofNat, Fr.toRat_ofNat]
    norm_num
  · dsimp only [enrichCandidate]
    rw [clamp01_toRat, Fr.toRat_sub, frOne_toRat]
  · dsimp only [enrichCandidate]
    rw [Fr.toRat_add, Fr.toRat_add, Fr.toRat_add, Fr.toRat_add,
      Fr.toRat_mul, Fr.toRat_mul, Fr.toRat_mul, Fr.toRat_mul, Fr.toRat_mul,
      hL, hR, hK, hC, hT,
      clamp01_toRat (Fr.div (Fr.ofNat (blockTitleOverlap tt (blockNameCandidates STOP root fuel c)))
        (Fr.ofNat (max 1 tt.length))),
      Fr.toRat_div _ _ (by simp [Fr.ofNat]), Fr.toRat_ofNat, Fr.toRat_ofNat]
    ring

/-- C6: the budget packer accepts, in order, exactly the candidates
that fit the remaining budget (its output is a sublist of the input
whose sizes sum within the budget, and -- when sizes are positive, as
they always are at its call sites -- it coincides with the spec's
skip-don't-truncate packer, so a skipped oversized candidate does not
block a later smaller one); Tier C is further capped to the top 3
blocks after packing. -/
theorem C6_budget_packer {α : Type} (size : α → Nat) (items : List α) (b : Nat)
    (STOP : List String) (root : STree) (m : TextModel) (baseRange : Rng)
    (cursor : Position) (budgetC : Nat) (fuel : Nat) :
    (selectWithinBudget size items b).Sublist items ∧
    ((selectWithinBudget size items b).map size).sum ≤ b ∧
    ((∀ x ∈ items, 0 < size x) →
      selectWithinBudget size items b = specSelect size items b) ∧
    (rpPickedC STOP root m baseRange cursor budgetC fuel).length ≤ 3 := by
  refine ⟨selectGo_sublist size b items 0, selectWithinBudget_sum size items b,
    fun hpos => selectWithinBudget_eq_spec size items b hpos, ?_⟩
  unfold rpPickedC
  simp only [List.length_take]
  omega

theorem C6_witness :
    selectWithinBudget (fun (n : Nat) => n) [2, 4, 3] 5 =
      specSelect (fun (n : Nat) => n) [2, 4, 3] 5 ∧
    selectWithinBudget (fun (n : Nat) => n) [2, 4, 3] 5 = [2, 3] ∧
    (rpPickedC [] emptyTree emptyModel ⟨0, 0⟩ ⟨1, 1⟩ 10 20).length ≤ 3 :=
  ⟨(C6_budget_packer (fun (n : Nat) => n) [2, 4, 3] 5 [] emptyTree emptyModel
      ⟨0, 0⟩ ⟨1, 1⟩ 10 20).2.2.1 (by decide),
   by decide,
   (C6_budget_packer (fun (n : Nat) => n) [2, 4, 3] 5 [] emptyTree emptyModel
      ⟨0, 0⟩ ⟨1, 1⟩ 10 20).2.2.2⟩

theorem C10_witness :
    c1run = .ok (c1res, cexState) ∧
    c1res.meta.budgets = deriveBudgets 8000 defaultTierPercents ∧
    c1res.meta.budgets.A = 3200 := by
  have h : c1run = .ok (c1res, cexState) := rfl
  have h2 := C10_budget_clamp.2 (constParser cexTree) 0 [] expNegStub cexState cexCursor
    {} 30 c1res cexState h
  exact ⟨h, h2, rfl⟩

end ContextSpec
